import Mathlib

/-!
# Verification of the MaxOracle analytics / recommendation core

This file is a shallow embedding of the algorithmic core of the MaxOracle
repository (`apps/lotto/services/recommender.py`, `analytics.py`, `ai.py`)
together with proofs and refutations of the frozen specification claims.

Modelling conventions:

* A Python `Draw` row is `DrawRec` (date modelled as a `Nat` ordinal, main
  `numbers` as a `List Nat`, `bonus` as a `Nat`).
* Python floats are modelled as `ℚ`.  Transcendental float operations
  (`** (1/w)`, `sqrt`, `log`, the sigmoid `1/(1+exp (-z))`) are supplied by an
  ambient structure `FloatOps` of unconstrained functions; every universal
  theorem quantifies over them.  The float literal `0.4` used by the diversity
  filter is modelled as `2/5` (no Jaccard value of two 7-element sets can fall
  between the real `0.4` and its binary-float rounding, so the comparison is
  exact).
* `random.Random` is modelled as a deterministic stream of raw naturals:
  `Rng` holds a stream function and a position.  A seeded generator's stream
  is produced by the ambient `DetOps` maps (`mt` for integer seeds, `strSeed`
  for string seeds, `sha8` for the first 8 big-endian bytes of a SHA-256
  digest used by `_seeded_random`).  An *unseeded* `random.Random()` draws a
  fresh stream from an `entropy : Nat → Nat → Nat` field (first argument:
  construction site), which models per-call OS entropy; determinism claims
  state that results do not depend on `entropy`.
* Python's `sorted`/`list.sort` are modelled by a stable insertion sort
  `stableSortBy lt` (`lt x y` = "x must be placed strictly before y"), and
  `collections.Counter` by an insertion-ordered association list, so tie
  behaviour (insertion order) matches CPython.
* The inner `while len(selection) < 7` fill loop of `_build_candidate` picks
  from a fixed pool and in Python terminates only almost surely; it is
  embedded with an explicit fuel parameter and returns `none` on fuel
  exhaustion (= divergence of the source loop).  All statements about
  generation results are therefore over the `some` outcomes, quantified over
  every fuel.
-/

/-- A lottery draw record: the fields of `apps.lotto.models.Draw` that the
analytic core reads (`date` as an ordinal, `numbers`, `bonus`). -/
structure DrawRec where
  date : Nat
  numbers : List Nat
  bonus : Nat
  deriving DecidableEq, Repr

/-- Deterministic raw-randomness stream with a read position: the model of a
`random.Random` instance. -/
structure Rng where
  fn : Nat → Nat
  pos : Nat

/-- Pull the next raw natural from the stream. -/
def Rng.next (r : Rng) : Nat × Rng :=
  (r.fn r.pos, ⟨r.fn, r.pos + 1⟩)

/-- Make a generator from a stream. -/
def mkRng (f : Nat → Nat) : Rng := ⟨f, 0⟩

/-- The float operations that the Python code takes from `math` / the float
`**` operator; left abstract (any function of the right type). -/
structure FloatOps where
  fpow : ℚ → ℚ → ℚ   -- u ** e
  fsqrt : ℚ → ℚ      -- x ** 0.5
  flog : ℚ → ℚ       -- math.log x
  sigmoid : ℚ → ℚ    -- 1 / (1 + exp (-z))

/-- The deterministic ambient maps of the embedding: seeded Mersenne-Twister
streams, string-seed hashing, `sha256` first-8-bytes, and the float ops. -/
structure DetOps where
  mt : Nat → Nat → Nat        -- integer seed ↦ raw stream
  strSeed : String → Nat → Nat -- string seed ↦ raw stream (random.Random(str))
  sha8 : String → Nat          -- int.from_bytes(sha256(payload).digest()[:8])
  fops : FloatOps

/-- The full ambient environment: deterministic maps plus per-call OS entropy
(for unseeded `random.Random()`; first argument is the construction site). -/
structure Env where
  ops : DetOps
  entropy : Nat → Nat → Nat

/-- `random.Random(seed)` as used by `RecommendationEngine.__init__`
(construction site 0 when unseeded). -/
def pyRandomOfSeed (env : Env) (seed : Option String) : Rng :=
  match seed with
  | none => mkRng (env.entropy 0)
  | some s => mkRng (env.ops.strSeed s)

/-- `_seeded_random(seed, salt)` from recommender.py: unseeded `Random()` when
`seed is None` (fresh entropy stream per construction `site`), otherwise a
`Random` seeded with the first 8 bytes of `sha256(f"{seed}:{salt}")`. -/
def seededRandom (env : Env) (site : Nat) (seed : Option String) (salt : String) : Rng :=
  match seed with
  | none => mkRng (env.entropy site)
  | some s => mkRng (env.ops.mt (env.ops.sha8 (s ++ ":" ++ salt)))

/-- `_lang_text(lang, zh, en)`. -/
def langText (lang zh en : String) : String :=
  if lang = "en" then en else zh

/-! ## Stable sorting (model of Python `sorted` / `list.sort`) -/

/-- Insert `x` into `l` immediately before the first element `y` with
`lt x y`; among elements equivalent to `x` it lands last, which gives the
stability of Python's sort. -/
def insOrd (lt : α → α → Bool) (x : α) : List α → List α
  | [] => [x]
  | y :: ys => if lt x y then x :: y :: ys else y :: insOrd lt x ys

/-- Stable sort: fold the input (in order) into an ordered accumulator. -/
def stableSortBy (lt : α → α → Bool) (l : List α) : List α :=
  l.foldl (fun acc x => insOrd lt x acc) []

theorem insOrd_perm (lt : α → α → Bool) (x : α) (l : List α) :
    List.Perm (insOrd lt x l) (x :: l) := by
  induction l with
  | nil => simp [insOrd]
  | cons y ys ih =>
    simp only [insOrd]
    by_cases h : lt x y
    · simp [h]
    · simp only [h, if_false]
      exact (ih.cons y).trans (List.Perm.swap x y ys)

theorem foldl_insOrd_perm (lt : α → α → Bool) (l acc : List α) :
    List.Perm (l.foldl (fun acc x => insOrd lt x acc) acc) (acc ++ l) := by
  induction l generalizing acc with
  | nil => simp
  | cons x xs ih =>
    simp only [List.foldl_cons]
    refine (ih (insOrd lt x acc)).trans ?_
    have h1 : List.Perm (insOrd lt x acc ++ xs) ((x :: acc) ++ xs) :=
      (insOrd_perm lt x acc).append_right xs
    refine h1.trans ?_
    simpa using (@List.perm_middle _ x acc xs).symm

theorem stableSortBy_perm (lt : α → α → Bool) (l : List α) :
    List.Perm (stableSortBy lt l) l := by
  simpa [stableSortBy] using foldl_insOrd_perm lt l []

theorem stableSortBy_length (lt : α → α → Bool) (l : List α) :
    (stableSortBy lt l).length = l.length :=
  (stableSortBy_perm lt l).length_eq

theorem mem_stableSortBy (lt : α → α → Bool) {x : α} {l : List α} :
    x ∈ stableSortBy lt l ↔ x ∈ l :=
  (stableSortBy_perm lt l).mem_iff

theorem stableSortBy_nodup (lt : α → α → Bool) {l : List α} (h : l.Nodup) :
    (stableSortBy lt l).Nodup :=
  ((stableSortBy_perm lt l).nodup_iff).mpr h

/-- Sorting a list of naturals ascending, as `sorted(xs)` does. -/
def sortedNat (l : List Nat) : List Nat :=
  stableSortBy (fun a b => decide (a < b)) l

theorem insOrd_sorted_nat {x : Nat} {l : List Nat}
    (h : List.Sorted (· ≤ ·) l) :
    List.Sorted (· ≤ ·) (insOrd (fun a b => decide (a < b)) x l) := by
  induction l with
  | nil => simp [insOrd]
  | cons y ys ih =>
    simp only [insOrd]
    by_cases hxy : x < y
    · simp only [decide_eq_true_eq, hxy, if_true]
      refine List.sorted_cons.mpr ⟨?_, h⟩
      intro b hb
      rcases List.mem_cons.mp hb with hb | hb
      · exact hb ▸ Nat.le_of_lt hxy
      · exact le_trans (Nat.le_of_lt hxy) (List.rel_of_sorted_cons h b hb)
    · simp only [decide_eq_true_eq, hxy, if_false]
      have hyx : y ≤ x := Nat.le_of_not_lt hxy
      have hys : List.Sorted (· ≤ ·) ys := h.of_cons
      refine List.sorted_cons.mpr ⟨?_, ih hys⟩
      intro b hb
      have hb' := (insOrd_perm (fun a b => decide (a < b)) x ys).mem_iff.mp hb
      rcases List.mem_cons.mp hb' with hb' | hb'
      · exact hb' ▸ hyx
      · exact List.rel_of_sorted_cons h b hb'

theorem sortedNat_sorted (l : List Nat) : List.Sorted (· ≤ ·) (sortedNat l) := by
  have key : ∀ acc : List Nat, List.Sorted (· ≤ ·) acc →
      List.Sorted (· ≤ ·)
        (l.foldl (fun acc x => insOrd (fun a b => decide (a < b)) x acc) acc) := by
    induction l with
    | nil => intro acc h; simpa using h
    | cons x xs ih =>
      intro acc h
      simpa using ih (insOrd (fun a b => decide (a < b)) x acc) (insOrd_sorted_nat h)
  simpa [sortedNat, stableSortBy] using key [] (by simp)

theorem sortedNat_perm (l : List Nat) : List.Perm (sortedNat l) l :=
  stableSortBy_perm _ l

/-! ## `collections.Counter` as an insertion-ordered association list -/

/-- Add one occurrence of `x` to the counter (an in-place increment keeps the
position of the key; a new key is appended, as in a CPython dict). -/
def counterAdd [DecidableEq α] : List (α × Nat) → α → List (α × Nat)
  | [], x => [(x, 1)]
  | (k, v) :: rest, x =>
      if k = x then (k, v + 1) :: rest else (k, v) :: counterAdd rest x

/-- `Counter.update(xs)`. -/
def counterUpdate [DecidableEq α] (c : List (α × Nat)) (xs : List α) : List (α × Nat) :=
  xs.foldl counterAdd c

/-- `counter.get(x, 0)`. -/
def counterGet [DecidableEq α] (c : List (α × Nat)) (x : α) : Nat :=
  match c.find? (fun p => p.1 = x) with
  | some p => p.2
  | none => 0

/-- `Counter.most_common(k)`: stable sort by count descending, take `k`. -/
def counterMostCommon [DecidableEq α] (c : List (α × Nat)) (k : Nat) : List (α × Nat) :=
  (stableSortBy (fun a b : α × Nat => decide (b.2 < a.2)) c).take k

theorem counterAdd_keys [DecidableEq α] (c : List (α × Nat)) (x : α) :
    (counterAdd c x).map Prod.fst
      = if x ∈ c.map Prod.fst then c.map Prod.fst else c.map Prod.fst ++ [x] := by
  induction c with
  | nil => simp [counterAdd]
  | cons kv rest ih =>
    simp only [counterAdd]
    by_cases h : kv.1 = x
    · have : x ∈ (kv :: rest).map Prod.fst := by simp [← h]
      simp only [this, if_true]
      cases kv with
      | mk k v => simp_all
    · have hne : ¬ x = kv.1 := fun hx => h hx.symm
      by_cases hx : x ∈ rest.map Prod.fst
      · have : x ∈ (kv :: rest).map Prod.fst := by simp [hx]
        simp [h, this, ih, hx]
      · have : ¬ x ∈ (kv :: rest).map Prod.fst := by
          simp [hne, hx]
        simp [h, this, ih, hx, hne]

theorem counterAdd_keys_sub [DecidableEq α] (c : List (α × Nat)) (x k : α)
    (hk : k ∈ (counterAdd c x).map Prod.fst) : k ∈ c.map Prod.fst ∨ k = x := by
  rw [counterAdd_keys] at hk
  by_cases h : x ∈ c.map Prod.fst
  · rw [if_pos h] at hk; exact Or.inl hk
  · rw [if_neg h] at hk
    rcases List.mem_append.mp hk with hk | hk
    · exact Or.inl hk
    · exact Or.inr (by simpa using hk)

theorem counterAdd_keys_nodup [DecidableEq α] {c : List (α × Nat)} (x : α)
    (h : (c.map Prod.fst).Nodup) : ((counterAdd c x).map Prod.fst).Nodup := by
  rw [counterAdd_keys]
  by_cases hx : x ∈ c.map Prod.fst
  · rwa [if_pos hx]
  · rw [if_neg hx]
    refine List.Nodup.append h (List.nodup_singleton x) ?_
    intro a ha hb
    rw [List.mem_singleton] at hb
    exact hx (hb ▸ ha)

theorem counterUpdate_keys_sub [DecidableEq α] (c : List (α × Nat)) (xs : List α)
    (k : α) (hk : k ∈ (counterUpdate c xs).map Prod.fst) :
    k ∈ c.map Prod.fst ∨ k ∈ xs := by
  induction xs generalizing c with
  | nil => exact Or.inl (by simpa [counterUpdate] using hk)
  | cons x xs ih =>
    simp only [counterUpdate, List.foldl_cons] at hk
    rcases ih (counterAdd c x) hk with h | h
    · rcases counterAdd_keys_sub c x k h with h' | h'
      · exact Or.inl h'
      · exact Or.inr (by simp [h'])
    · exact Or.inr (by simp [h])

theorem counterUpdate_keys_nodup [DecidableEq α] {c : List (α × Nat)} (xs : List α)
    (h : (c.map Prod.fst).Nodup) : ((counterUpdate c xs).map Prod.fst).Nodup := by
  induction xs generalizing c with
  | nil => simpa [counterUpdate]
  | cons x xs ih =>
    simp only [counterUpdate, List.foldl_cons]
    exact ih (counterAdd_keys_nodup x h)

theorem counterMostCommon_keys_sub [DecidableEq α] (c : List (α × Nat)) (k : Nat)
    (a : α) (ha : a ∈ (counterMostCommon c k).map Prod.fst) : a ∈ c.map Prod.fst := by
  simp only [counterMostCommon, List.map_take] at ha
  have h1 := List.mem_of_mem_take ha
  have h2 := (stableSortBy_perm (fun a b : α × Nat => decide (b.2 < a.2)) c).map Prod.fst
  exact h2.mem_iff.mp h1

theorem counterMostCommon_keys_nodup [DecidableEq α] {c : List (α × Nat)} (k : Nat)
    (h : (c.map Prod.fst).Nodup) : ((counterMostCommon c k).map Prod.fst).Nodup := by
  simp only [counterMostCommon, List.map_take]
  refine List.Nodup.sublist (List.take_sublist _ _) ?_
  have h2 := (stableSortBy_perm (fun a b : α × Nat => decide (b.2 < a.2)) c).map Prod.fst
  exact h2.nodup_iff.mpr h

/-! ## Random primitives (`choice`, `sample`, `random`, `uniform`) -/

/-- `rng.choice(l)`: one element of `l` (index = next raw value mod length). -/
def rngChoice (r : Rng) (l : List α) [Inhabited α] : α × Rng :=
  let (i, r') := r.next
  (l.getD (i % l.length) default, r')

/-- `rng.random()`: a rational in `[0,1)` derived from the next raw value. -/
def rngFloat (r : Rng) : ℚ × Rng :=
  let (i, r') := r.next
  ((i % 2 ^ 53 : ℚ) / 2 ^ 53, r')

/-- `rng.uniform(a, b)`. -/
def rngUniform (r : Rng) (a b : ℚ) : ℚ × Rng :=
  let (u, r') := rngFloat r
  (a + (b - a) * u, r')

/-- `rng.sample(l, k)`: `k` distinct elements of the population, modelled by
repeated pick-and-remove (equivalent for the duplicate-free populations the
code samples from). -/
def rngSample (r : Rng) (l : List Nat) : Nat → List Nat × Rng
  | 0 => ([], r)
  | k + 1 =>
    if l.isEmpty then ([], r)
    else
      let (i, r') := r.next
      let x := l.getD (i % l.length) 0
      let (rest, r'') := rngSample r' (l.erase x) k
      (x :: rest, r'')

theorem rngSample_mem (r : Rng) (l : List Nat) (k : Nat) :
    ∀ x ∈ (rngSample r l k).1, x ∈ l := by
  induction k generalizing r l with
  | zero => intro x hx; simp [rngSample] at hx
  | succ k ih =>
    intro x hx
    simp only [rngSample] at hx
    by_cases hl : l.isEmpty
    · simp [hl] at hx
    · simp only [hl, if_false] at hx
      have hlen : 0 < l.length := by
        cases l with
        | nil => simp at hl
        | cons a as => simp
      have hmem : l.getD (r.fn r.pos % l.length) 0 ∈ l := by
        rw [List.getD_eq_getElem?_getD]
        have h : r.fn r.pos % l.length < l.length := Nat.mod_lt _ hlen
        rw [List.getElem?_eq_getElem h]
        exact List.getElem_mem _
      rcases List.mem_cons.mp hx with hx | hx
      · exact hx ▸ hmem
      · exact List.erase_subset _ _ (ih _ _ x hx)

theorem rngSample_nodup (r : Rng) (l : List Nat) (k : Nat) (h : l.Nodup) :
    (rngSample r l k).1.Nodup := by
  induction k generalizing r l with
  | zero => simp [rngSample]
  | succ k ih =>
    simp only [rngSample]
    by_cases hl : l.isEmpty
    · simp [hl]
    · simp only [hl, if_false]
      refine List.nodup_cons.mpr ⟨?_, ih _ _ (h.erase _)⟩
      intro hmem
      have := rngSample_mem _ _ _ _ hmem
      have hx := (h.mem_erase_iff).mp this
      exact hx.1 rfl

theorem rngSample_length (r : Rng) (l : List Nat) (k : Nat) (hk : k ≤ l.length) :
    (rngSample r l k).1.length = k := by
  induction k generalizing r l with
  | zero => simp [rngSample]
  | succ k ih =>
    simp only [rngSample]
    have hlen : 0 < l.length := lt_of_lt_of_le (Nat.succ_pos k) hk
    have hl : ¬ l.isEmpty := by
      cases l with
      | nil => simp at hlen
      | cons a as => simp
    simp only [hl, if_false]
    have hmem : l.getD (r.fn r.pos % l.length) 0 ∈ l := by
      rw [List.getD_eq_getElem?_getD]
      have h : r.fn r.pos % l.length < l.length := Nat.mod_lt _ hlen
      rw [List.getElem?_eq_getElem h]
      exact List.getElem_mem _
    have herase : (l.erase (l.getD (r.fn r.pos % l.length) 0)).length = l.length - 1 :=
      List.length_erase_of_mem hmem
    have := ih ⟨r.fn, r.pos + 1⟩ (l.erase (l.getD (r.fn r.pos % l.length) 0)) (by omega)
    simp only [List.getD_eq_getElem?_getD] at this
    simp [Rng.next, this]

theorem rngSample_length_le (r : Rng) (l : List Nat) (k : Nat) :
    (rngSample r l k).1.length ≤ k := by
  induction k generalizing r l with
  | zero => simp [rngSample]
  | succ k ih =>
    simp only [rngSample]
    by_cases hl : l.isEmpty
    · simp [hl]
    · simp only [hl, if_false, List.length_cons]
      exact Nat.succ_le_succ (ih _ _)

/-! ## Statistics engine: `_compute_omissions` (analytics.py) -/

/-- One draw's pass of the omission scan: set `latest_index[number] = idx` for
every main number not yet seen. -/
def omissionStep (st : Nat → Option Nat) (idx : Nat) (numbers : List Nat) :
    Nat → Option Nat :=
  numbers.foldl
    (fun s num => fun m =>
      if m = num then (if (s num).isNone then some idx else s num) else s m)
    st

/-- The scan over all draws (most recent first, `idx` counting up from 0). -/
def omissionState : List DrawRec → Nat → (Nat → Option Nat) → (Nat → Option Nat)
  | [], _, st => st
  | d :: rest, idx, st => omissionState rest (idx + 1) (omissionStep st idx d.numbers)

/-- `_compute_omissions(draws)`: for each number 1..50 the index of the most
recent draw containing it among its main numbers, or the total number of draws
when never seen. -/
def computeOmissions (draws : List DrawRec) : List (Nat × Nat) :=
  let st := omissionState draws 0 (fun _ => none)
  (List.range' 1 50).map fun num => (num, (st num).getD draws.length)

theorem omissionStep_eq (st : Nat → Option Nat) (idx : Nat) (numbers : List Nat)
    (n : Nat) :
    omissionStep st idx numbers n
      = if (st n).isNone ∧ n ∈ numbers then some idx else st n := by
  induction numbers generalizing st with
  | nil => simp [omissionStep]
  | cons m ms ih =>
    simp only [omissionStep, List.foldl_cons] at *
    rw [ih]
    by_cases hn : n = m
    · subst hn
      by_cases hst : (st n).isNone
      · simp [hst]
      · simp [hst]
    · by_cases hmem : n ∈ ms
      · simp [hn, hmem]
      · simp [hn, hmem]

theorem omissionState_eq (draws : List DrawRec) (idx : Nat) (st : Nat → Option Nat)
    (n : Nat) :
    omissionState draws idx st n
      = match st n with
        | some v => some v
        | none => (draws.findIdx? (fun d => n ∈ d.numbers)).map (· + idx) := by
  induction draws generalizing idx st with
  | nil =>
    cases h : st n with
    | none => simp [omissionState, h]
    | some v => simp [omissionState, h]
  | cons d rest ih =>
    simp only [omissionState]
    rw [ih]
    rw [omissionStep_eq]
    cases h : st n with
    | some v => simp [h]
    | none =>
      simp only [h, Option.isNone_none, true_and]
      by_cases hmem : n ∈ d.numbers
      · rw [List.findIdx?_cons]
        simp [hmem]
      · rw [List.findIdx?_cons]
        simp only [hmem, decide_False, if_false, Bool.false_eq_true]
        rw [List.findIdx?_succ]
        cases hfi : rest.findIdx? (fun d => decide (n ∈ d.numbers)) with
        | none => simp [hmem, hfi]
        | some i =>
          simp only [hmem, if_false, hfi, Option.map_some']
          have : i + (idx + 1) = i + 1 + idx := by omega
          simp [this]

/-! ## Recommendation engine: state and helpers (recommender.py) -/

/-- `jaccard(a, b)` on number sets, with the float division modelled in `ℚ`. -/
def jaccardQ (a b : Finset Nat) : ℚ :=
  ((a ∩ b).card : ℚ) / ((max (a ∪ b).card 1 : Nat) : ℚ)

/-- `_mode(values)`. -/
def pyMode (values : List Nat) : Nat :=
  if values.isEmpty then 3
  else ((counterMostCommon (counterUpdate [] values) 1).headD (3, 0)).1

/-- Python `int(len(values) * q)`: the products `len * 0.25` and `len * 0.75`
are exact in floating point, and `int()` truncates toward zero, which on the
exact rational `len * q = (len * q.num) / q.den` is `Int` T-division. -/
def pyIntTruncMul (n : Nat) (q : ℚ) : Int := ((n : Int) * q.num) / (q.den : Int)

/-- `_percentile_range(values, low, high)`. -/
def percentileRange (values : List Nat) (low high : ℚ) : Nat × Nat :=
  let s := sortedNat values
  if s.isEmpty then (60, 240)
  else
    let lowIdx : Int := pyIntTruncMul s.length low
    let highIdx : Int := pyIntTruncMul s.length high - 1
    (s.getD (max lowIdx 0).toNat 0, s.getD (max highIdx 0).toNat 0)

/-- `itertools.combinations(l, 2)` in order. -/
def allPairs : List Nat → List (Nat × Nat)
  | [] => []
  | x :: xs => (xs.map fun y => (x, y)) ++ allPairs xs

/-- `_top_pairs(draws, top_n)`. -/
def topPairs (draws : List DrawRec) (topN : Nat) : List (Nat × Nat) :=
  let counter := draws.foldl (fun c d => counterUpdate c (allPairs (sortedNat d.numbers))) []
  (counterMostCommon counter topN).map Prod.fst

/-- `_top_numbers(counts, k)`. -/
def topNumbersOf (counts : List (Nat × Nat)) (k : Nat) : List Nat :=
  (counterMostCommon counts k).map Prod.fst

/-- `_draw_numbers(draws)`: chronological (date-ascending, stable) order,
each draw's numbers sorted. -/
def drawNumbersSorted (draws : List DrawRec) : List (List Nat) :=
  (stableSortBy (fun a b : DrawRec => decide (a.date < b.date)) draws).map
    (fun d => sortedNat d.numbers)

/-- The state computed by `RecommendationEngine.__init__` (the `self.random`
generator is threaded separately; see `pyRandomOfSeed`). -/
structure EngineState where
  draws : List DrawRec
  lang : String
  mainCounts : List (Nat × Nat)
  hotNumbers : List Nat
  coldNumbers : List Nat
  neutralPool : List Nat
  targetOdd : Nat
  targetSmall : Nat
  sumRange : Nat × Nat
  commonPairs : List (Nat × Nat)
  deriving DecidableEq

/-- `RecommendationEngine.__init__(draws, seed, lang)` minus the rng. -/
def mkEngine (draws : List DrawRec) (lang : String) : EngineState :=
  let lang := if lang = "en" then "en" else "zh"
  let mainCounts := draws.foldl (fun c d => counterUpdate c d.numbers) []
  let omissions := computeOmissions draws
  let hot0 := (counterMostCommon mainCounts 10).map Prod.fst
  let cold0 :=
    ((stableSortBy (fun a b : Nat × Nat => decide (b.2 < a.2)) omissions).take 10).map Prod.fst
  let hotNumbers := if hot0.isEmpty then List.range' 1 10 else hot0
  let coldNumbers := if cold0.isEmpty then List.range' 41 10 else cold0
  let neutralPool :=
    (List.range' 1 50).filter (fun n => ¬ (n ∈ hotNumbers ∨ n ∈ coldNumbers))
  let oddCounts := draws.map (fun d => (d.numbers.filter (fun n => n % 2 = 1)).length)
  let sizeCounts := draws.map (fun d => (d.numbers.filter (fun n => n ≤ 25)).length)
  let sums := draws.map (fun d => d.numbers.sum)
  { draws := draws, lang := lang, mainCounts := mainCounts,
    hotNumbers := hotNumbers, coldNumbers := coldNumbers, neutralPool := neutralPool,
    targetOdd := if oddCounts.isEmpty then 3 else pyMode oddCounts,
    targetSmall := if sizeCounts.isEmpty then 3 else pyMode sizeCounts,
    sumRange := if sums.isEmpty then (60, 240) else percentileRange sums (mkRat 1 4) (mkRat 3 4),
    commonPairs := topPairs draws 15 }

/-- A Python `set` of small naturals, modelled as a duplicate-free list:
insertion adds the element only when absent (iteration order is irrelevant
here because `_build_candidate` sorts the set before returning it). -/
def pyInsert (l : List Nat) (x : Nat) : List Nat :=
  if x ∈ l then l else l ++ [x]

/-- The `while len(selection) < 7` fill loop of `_build_candidate` (fuelled;
`none` = the Python loop diverges on this stream). -/
def fillSelection (pool : List Nat) : Nat → Rng → List Nat → Option (List Nat) × Rng
  | 0, r, sel => if sel.length < 7 then (none, r) else (some sel, r)
  | fuel + 1, r, sel =>
      if sel.length < 7 then
        let pick := rngChoice r pool
        fillSelection pool fuel pick.2 (pyInsert sel pick.1)
      else (some sel, r)

/-- `selection.update(self.random.sample(self.hot_numbers, hot_pick))` (the
`if hot_pick:` guard included). -/
def hotSelOf (eng : EngineState) (r : Rng) : List Nat × Rng :=
  if min 3 eng.hotNumbers.length ≠ 0
  then rngSample r eng.hotNumbers (min 3 eng.hotNumbers.length)
  else ([], r)

/-- The cold-number sampling step of `_build_candidate` (guarded by
`cold_pick` and `len(cold_candidates) >= cold_pick`). -/
def coldSelOf (eng : EngineState) (sel1 : List Nat) (r : Rng) : List Nat × Rng :=
  let coldCandidates := eng.coldNumbers.filter (fun n => n ∉ sel1)
  if min 2 eng.coldNumbers.length ≠ 0
      ∧ min 2 eng.coldNumbers.length ≤ coldCandidates.length
  then rngSample r coldCandidates (min 2 eng.coldNumbers.length)
  else ([], r)

/-- The common-pair injection step of `_build_candidate`. -/
def pairSelOf (eng : EngineState) (sel2 : List Nat) (r : Rng) : List Nat × Rng :=
  if eng.commonPairs.isEmpty then (sel2, r)
  else
    let pick := rngChoice r eng.commonPairs
    (pyInsert (pyInsert sel2 pick.1.1) pick.1.2, pick.2)

/-- The selection of `_build_candidate` before the fill loop. -/
def candidateSel (eng : EngineState) (r : Rng) : List Nat × Rng :=
  let hotRes := hotSelOf eng r
  let sel1 := hotRes.1.foldl pyInsert []
  let coldRes := coldSelOf eng sel1 hotRes.2
  let sel2 := coldRes.1.foldl pyInsert sel1
  pairSelOf eng sel2 coldRes.2

/-- `RecommendationEngine._build_candidate` (fuelled inner loop). -/
def buildCandidate (eng : EngineState) (fuel : Nat) (r : Rng) :
    Option (List Nat) × Rng :=
  let pairRes := candidateSel eng r
  let pool := (List.range' 1 50).filter (fun n => n ∉ pairRes.1)
  let fillRes := fillSelection pool fuel pairRes.2 pairRes.1
  (fillRes.1.map sortedNat, fillRes.2)

/-- `RecommendationEngine._passes_constraints(numbers)`. -/
def passesConstraints (eng : EngineState) (numbers : List Nat) : Bool :=
  let oddCount := (numbers.filter (fun n => n % 2 = 1)).length
  let smallCount := (numbers.filter (fun n => n ≤ 25)).length
  let totalSum := numbers.sum
  if ((oddCount : Int) - (eng.targetOdd : Int)).natAbs > 2 then false
  else if ((smallCount : Int) - (eng.targetSmall : Int)).natAbs > 2 then false
  else if ¬ (eng.sumRange.1 ≤ totalSum ∧ totalSum ≤ eng.sumRange.2) then false
  else
    let hotCount := (numbers.filter (fun n => n ∈ eng.hotNumbers)).length
    let coldCount := (numbers.filter (fun n => n ∈ eng.coldNumbers)).length
    if ¬ eng.hotNumbers.isEmpty ∧ hotCount < 1 then false
    else if ¬ eng.coldNumbers.isEmpty ∧ coldCount < 1 then false
    else true

/-- The `Recommendation` dataclass.  `even_count`/`large_count` are
`7 - count` in Python int arithmetic, hence `Int` here. -/
structure Recommendation where
  numbers : List Nat
  odd_count : Nat
  even_count : Int
  small_count : Nat
  large_count : Int
  total_sum : Nat
  hot_count : Nat
  cold_count : Nat
  pair_boost : Nat
  explanation : List String
  algorithm : String
  algorithm_label : String
  algorithm_summary : String

/-- `RecommendationEngine._build_recommendation` (and the public
`build_recommendation` wrapper, which just forwards every argument). -/
def buildRecommendation (eng : EngineState) (numbers : List Nat) (algorithm : String)
    (label0 summary0 : Option String) (explanation0 : Option (List String))
    (lang0 : Option String) : Recommendation :=
  let lang := if (lang0.getD eng.lang) = "en" then "en" else "zh"
  let odd_count := (numbers.filter (fun n => n % 2 = 1)).length
  let even_count : Int := 7 - (odd_count : Int)
  let small_count := (numbers.filter (fun n => n ≤ 25)).length
  let large_count : Int := 7 - (small_count : Int)
  let total_sum := numbers.sum
  let hot_count := (numbers.filter (fun n => n ∈ eng.hotNumbers)).length
  let cold_count := (numbers.filter (fun n => n ∈ eng.coldNumbers)).length
  let pair_boost := (eng.commonPairs.filter (fun p => p.1 ∈ numbers ∧ p.2 ∈ numbers)).length
  let label := label0.getD (langText lang "热冷平衡综合策略" "Balanced Hot/Cold Mix")
  let summary := summary0.getD
    (langText lang "热冷平衡 + 结构约束 + 高频共现组合"
      "Hot/cold balance + structure constraints + common pairs")
  let explanation :=
    match explanation0 with
    | some e => e
    | none =>
        let base := [
          langText lang
            ("热号 " ++ toString hot_count ++ " 个 + 冷号 " ++ toString cold_count ++ " 个的平衡组合")
            ("Balanced " ++ toString hot_count ++ " hot + " ++ toString cold_count ++ " cold numbers"),
          langText lang
            ("奇偶比 " ++ toString odd_count ++ ":" ++ toString even_count ++ " 接近历史常见区间")
            ("Odd-even ratio " ++ toString odd_count ++ ":" ++ toString even_count ++ " within typical range"),
          langText lang
            ("大小比 " ++ toString small_count ++ ":" ++ toString large_count ++ " 与历史分布一致")
            ("Low-high ratio " ++ toString small_count ++ ":" ++ toString large_count ++ " matches history"),
          langText lang
            ("和值 " ++ toString total_sum ++ " 落在常见区间 " ++ toString eng.sumRange.1 ++ "-" ++ toString eng.sumRange.2)
            ("Sum " ++ toString total_sum ++ " within typical band " ++ toString eng.sumRange.1 ++ "-" ++ toString eng.sumRange.2)]
        if pair_boost ≠ 0
        then base ++ [langText lang "包含历史高共现号码对" "Includes historically common pairs"]
        else base
  { numbers := numbers, odd_count := odd_count, even_count := even_count,
    small_count := small_count, large_count := large_count, total_sum := total_sum,
    hot_count := hot_count, cold_count := cold_count, pair_boost := pair_boost,
    explanation := explanation, algorithm := algorithm, algorithm_label := label,
    algorithm_summary := summary }

/-- The body of one `generate` iteration after a candidate is built: apply the
constraint filter, then the Jaccard diversity filter, then accept. -/
def acceptCandidate (eng : EngineState) (maxSim : ℚ) (recs : List Recommendation)
    (ns : List Nat) : List Recommendation :=
  if ¬ passesConstraints eng ns then recs
  else if recs.any
      (fun rec => decide (maxSim < jaccardQ ns.toFinset rec.numbers.toFinset))
    then recs
  else recs ++ [buildRecommendation eng ns "BalancedHotColdMix" none none none none]

/-- The `while` loop of `RecommendationEngine.generate`, with `budget` the
remaining allowed attempts (`count * 300` at entry).  Returns the result
(`none` = the candidate fill loop diverged), the generator, and the number of
candidate-construction attempts actually performed. -/
def genLoop (eng : EngineState) (count : Nat) (maxSim : ℚ) (fillFuel : Nat) :
    Nat → Rng → List Recommendation → Option (List Recommendation) × Rng × Nat
  | 0, r, recs => (some recs, r, 0)
  | budget + 1, r, recs =>
      if count ≤ recs.length then (some recs, r, 0)
      else
        let cand := buildCandidate eng fillFuel r
        match cand.1 with
        | none => (none, cand.2, 1)
        | some ns =>
            let res := genLoop eng count maxSim fillFuel budget cand.2
              (acceptCandidate eng maxSim recs ns)
            (res.1, res.2.1, res.2.2 + 1)

/-- `RecommendationEngine.generate(count, max_similarity)` with the attempt
count exposed. -/
def engineGenerateFull (eng : EngineState) (count : Nat) (maxSim : ℚ)
    (fillFuel : Nat) (r : Rng) : Option (List Recommendation) × Rng × Nat :=
  genLoop eng count maxSim fillFuel (count * 300) r []

/-- `RecommendationEngine.generate`, result only. -/
def engineGenerate (eng : EngineState) (count : Nat) (maxSim : ℚ)
    (fillFuel : Nat) (r : Rng) : Option (List Recommendation) :=
  (engineGenerateFull eng count maxSim fillFuel r).1

/-! ## The 8 fixed strategies of `build_recommendations` -/

/-- `_dirichlet_probabilities(draws, alpha)`. -/
def dirichletProbabilities (draws : List (List Nat)) (alpha : ℚ) : List (Nat × ℚ) :=
  let counts := draws.foldl counterUpdate []
  let totalEvents := draws.length * 7
  let denom : ℚ := (totalEvents : ℚ) + 50 * alpha
  (List.range' 1 50).map fun i => (i, ((counterGet counts i : ℚ) + alpha) / denom)

/-- `_binomial_z_scores(draws)` (the float `** 0.5` is `fsqrt`). -/
def binomialZScores (fops : FloatOps) (draws : List (List Nat)) : List (Nat × ℚ) :=
  let counts := draws.foldl counterUpdate []
  let totalDraws := draws.length
  let q : ℚ := 7 / 50
  let expected : ℚ := (totalDraws : ℚ) * q
  let variance : ℚ := max ((totalDraws : ℚ) * q * (1 - q)) (1 / 1000000000)
  (List.range' 1 50).map fun i =>
    (i, ((counterGet counts i : ℚ) - expected) / fops.fsqrt variance)

/-- `counts[n] -= 1; if counts[n] <= 0: del counts[n]`. -/
def counterSub [DecidableEq α] : List (α × Nat) → α → List (α × Nat)
  | [], _ => []
  | (k, v) :: rest, x =>
      if k = x then (if v ≤ 1 then rest else (k, v - 1) :: rest)
      else (k, v) :: counterSub rest x

/-- One iteration of the `_ewma_scores` loop: slide the window, then blend
every score with the window's Dirichlet-smoothed probability. -/
def ewmaStep (window : Nat) (alpha decay : ℚ)
    (st : List (Nat × ℚ) × List (Nat × Nat) × List (List Nat)) (draw : List Nat) :
    List (Nat × ℚ) × List (Nat × Nat) × List (List Nat) :=
  let windowDraws0 := st.2.2 ++ [draw]
  let counts0 := counterUpdate st.2.1 draw
  let trimmed :=
    if window < windowDraws0.length then
      match windowDraws0 with
      | [] => (counts0, windowDraws0)
      | removed :: restW => (removed.foldl counterSub counts0, restW)
    else (counts0, windowDraws0)
  let denom : ℚ := ((trimmed.2.length * 7 : Nat) : ℚ) + 50 * alpha
  ((st.1.map fun p =>
      (p.1, (1 - decay) * p.2 + decay * (((counterGet trimmed.1 p.1 : ℚ) + alpha) / denom))),
   trimmed.1, trimmed.2)

/-- `_ewma_scores(draws, window, alpha, decay)`. -/
def ewmaScores (draws : List (List Nat)) (window : Nat) (alpha decay : ℚ) :
    List (Nat × ℚ) :=
  (draws.foldl (ewmaStep window alpha decay)
    ((List.range' 1 50).map (fun i => (i, 1 / 50)), [], [])).1

/-- Python tuple comparison `(key, num) > (key', num')`, used by
`keys.sort(reverse=True)`. -/
def tupleGtQN (a b : ℚ × Nat) : Bool :=
  decide (b.1 < a.1) || (decide (a.1 = b.1) && decide (b.2 < a.2))

/-- One weight's step of `_weighted_sample_without_replacement`: skip
non-positive weights, otherwise append the exponential sort key. -/
def wswrStep (fops : FloatOps) (st : List (ℚ × Nat) × Rng) (p : Nat × ℚ) :
    List (ℚ × Nat) × Rng :=
  if p.2 ≤ 0 then st
  else
    let u := rngFloat st.2
    (st.1 ++ [(fops.fpow u.1 (1 / p.2), p.1)], u.2)

/-- `_weighted_sample_without_replacement(weights, k, rng)`: exponential-key
trick, keys sorted descending, top `k`, returned sorted ascending. -/
def weightedSampleWithoutReplacement (fops : FloatOps) (weights : List (Nat × ℚ))
    (k : Nat) (r : Rng) : List Nat × Rng :=
  let built := weights.foldl (wswrStep fops) ([], r)
  let sortedKeys := stableSortBy tupleGtQN built.1
  (sortedNat ((sortedKeys.take k).map Prod.snd), built.2)

/-- Top-`k` keys of a number→score table, score descending (stable). -/
def topKByValueDesc (d : List (Nat × ℚ)) (k : Nat) : List Nat :=
  ((stableSortBy (fun a b : Nat × ℚ => decide (b.2 < a.2)) d).take k).map Prod.fst

/-- `sorted(rng.sample(range(1, 51), 7))`. -/
def sortedSampleTicket (r : Rng) : List Nat × Rng :=
  let s := rngSample r (List.range' 1 50) 7
  (sortedNat s.1, s.2)

/-- The shared best-of-N sampling loop of `_feature_distribution_ticket` and
`_anti_crowd_ticket` (`score` is pure; `none` = `best_ticket is None`). -/
def bestTicketLoop (score : List Nat → ℚ) :
    Nat → Rng → Option (List Nat × ℚ) → Option (List Nat × ℚ) × Rng
  | 0, r, best => (best, r)
  | n + 1, r, best =>
      let t := sortedSampleTicket r
      let d := score t.1
      let best' :=
        match best with
        | none => some (t.1, d)
        | some b => if d < b.2 then some (t.1, d) else some b
      bestTicketLoop score n t.2 best'

/-- `_entropy(values)` (float `log` is `flog`). -/
def entropyQ (fops : FloatOps) (values : List Nat) : ℚ :=
  if values.isEmpty then 0
  else
    let counts := counterUpdate [] values
    let total := (counts.map Prod.snd).sum
    counts.foldl
      (fun e p =>
        let q : ℚ := (p.2 : ℚ) / (total : ℚ)
        e - q * (if q ≤ 0 then 0 else fops.flog q))
      0

/-- The feature record `_extract_features` builds. -/
structure Feat where
  sumv : ℚ
  odd : ℚ
  small : ℚ
  consec : ℚ
  gap_entropy : ℚ

/-- `_extract_features(draw)`. -/
def extractFeatures (fops : FloatOps) (draw : List Nat) : Feat :=
  let s := sortedNat draw
  let consec := ((List.zip s s.tail).filter (fun p => p.2 = p.1 + 1)).length
  let gaps := (List.zip s s.tail).map (fun p => p.2 - p.1)
  { sumv := (s.sum : ℚ), odd := ((s.filter (fun n => n % 2 = 1)).length : ℚ),
    small := ((s.filter (fun n => n ≤ 25)).length : ℚ), consec := (consec : ℚ),
    gap_entropy := entropyQ fops gaps }

/-- Mean and population standard deviation of one feature column
(`_feature_stats`, one key). -/
def meanStdQ (fops : FloatOps) (values : List ℚ) : ℚ × ℚ :=
  let mean := values.sum / ((max values.length 1 : Nat) : ℚ)
  let variance := (values.map (fun v => (v - mean) ^ 2)).sum / ((max values.length 1 : Nat) : ℚ)
  (mean, fops.fsqrt variance)

/-- `_feature_stats(features)` over the five fixed keys. -/
def featureStats (fops : FloatOps) (features : List Feat) : Feat × Feat :=
  let s := meanStdQ fops (features.map Feat.sumv)
  let o := meanStdQ fops (features.map Feat.odd)
  let sm := meanStdQ fops (features.map Feat.small)
  let c := meanStdQ fops (features.map Feat.consec)
  let g := meanStdQ fops (features.map Feat.gap_entropy)
  (⟨s.1, o.1, sm.1, c.1, g.1⟩, ⟨s.2, o.2, sm.2, c.2, g.2⟩)

/-- The standardized absolute distance of a ticket's features from the
historical means (`for key in means: ...`; an empty history means an empty
`means` dict, so distance 0). -/
def ticketDistance (fops : FloatOps) (hasFeatures : Bool) (means stds : Feat)
    (t : List Nat) : ℚ :=
  if hasFeatures then
    let f := extractFeatures fops t
    |((f.sumv - means.sumv) / (if stds.sumv = 0 then 1 else stds.sumv))| +
    |((f.odd - means.odd) / (if stds.odd = 0 then 1 else stds.odd))| +
    |((f.small - means.small) / (if stds.small = 0 then 1 else stds.small))| +
    |((f.consec - means.consec) / (if stds.consec = 0 then 1 else stds.consec))| +
    |((f.gap_entropy - means.gap_entropy) / (if stds.gap_entropy = 0 then 1 else stds.gap_entropy))|
  else 0

/-- The shared tail of `_feature_distribution_ticket` and `_anti_crowd_ticket`:
return the best ticket, or a fresh sample when `best_ticket is None`. -/
def bestOrFallback (res : Option (List Nat × ℚ) × Rng) : List Nat × Rng :=
  match res.1 with
  | some b => (b.1, res.2)
  | none => sortedSampleTicket res.2

/-- `_feature_distribution_ticket(draws, rng)`. -/
def featureDistributionTicket (fops : FloatOps) (draws : List (List Nat)) (r : Rng) :
    List Nat × Rng :=
  let features := draws.map (extractFeatures fops)
  let ms := featureStats fops features
  bestOrFallback
    (bestTicketLoop (ticketDistance fops (¬ features.isEmpty) ms.1 ms.2) 3000 r none)

/-- `_is_arithmetic_progression(ticket)`. -/
def isArithmeticProgression (t : List Nat) : Bool :=
  if t.length < 3 then false
  else
    let diffs := (List.zip t t.tail).map (fun p => (p.2 : Int) - (p.1 : Int))
    diffs.all (fun d => d = diffs.headD 0)

/-- `_popularity_penalty(ticket)`. -/
def popularityPenalty (t : List Nat) : ℚ :=
  let low31 := (t.filter (fun n => n ≤ 31)).length
  let consec := ((List.zip t t.tail).filter (fun p => p.2 = p.1 + 1)).length
  let lastDigits := t.map (fun n => n % 10)
  let maxDup := (lastDigits.map (fun d => lastDigits.count d)).foldr max 0
  let p := (3 / 2 : ℚ) * ((max ((low31 : Int) - 3) 0 : Int) : ℚ)
    + (consec : ℚ)
    + ((max ((maxDup : Int) - 2) 0 : Int) : ℚ)
  let p := if isArithmeticProgression t then p + 5 / 2 else p
  if 4 ≤ (t.filter (fun n => n % 5 = 0)).length then p + 3 / 2 else p

/-- `_anti_crowd_ticket(rng)`. -/
def antiCrowdTicket (r : Rng) : List Nat × Rng :=
  bestOrFallback (bestTicketLoop popularityPenalty 3000 r none)

/-- The recursive split search of `_change_point_segment_probabilities`
(`fuel` bounds the recursion depth; the source recursion strictly shrinks its
segment each call, so any `fuel ≥ n` is enough). -/
def cpRecurse (segCost : Nat → Nat → ℚ) (minSegment : Nat) (penalty : ℚ) :
    Nat → Nat → Nat → List Nat
  | 0, _, _ => []
  | fuel + 1, s, e =>
      if e + 1 - s < 2 * minSegment then []
      else
        let cands := List.range' (s + minSegment) (e + 1 - minSegment - (s + minSegment))
        let costFull := segCost s e
        let best := cands.foldl
          (fun (b : Option Nat × ℚ) split =>
            let gain := costFull - (segCost s split + segCost (split + 1) e)
            if b.2 < gain then (some split, gain) else b)
          (none, 0)
        match best.1 with
        | some split =>
            if penalty < best.2 then
              split :: (cpRecurse segCost minSegment penalty fuel s split
                ++ cpRecurse segCost minSegment penalty fuel (split + 1) e)
            else []
        | none => []

/-- `_change_point_segment_probabilities(draws)`. -/
def changePointSegmentProbabilities (fops : FloatOps) (draws : List (List Nat)) :
    List (Nat × ℚ) :=
  if draws.isEmpty then (List.range' 1 50).map (fun i => (i, 1 / 50))
  else
    let maxDraws := min draws.length 600
    let segmentDraws := draws.drop (draws.length - maxDraws)
    let n := segmentDraws.length
    let minSegment := if 240 ≤ n then 120 else max 20 (n / 4)
    let penalty : ℚ := 150
    let rows : List (Nat → Nat) :=
      segmentDraws.foldl
        (fun acc draw =>
          let prev := acc.getLastD (fun _ => 0)
          acc ++ [draw.foldl (fun row num => fun m => if m = num then row m + 1 else row m) prev])
        [fun _ => 0]
    let prefixAt := fun i => rows.getD i (fun _ => 0)
    let segCost := fun (s e : Nat) =>
      let counts := (List.range' 1 50).map (fun i => prefixAt e i - prefixAt (s - 1) i)
      let total := counts.sum
      let epsilon : ℚ := 1 / 1000000
      let denom : ℚ := (total : ℚ) + 50 * epsilon
      counts.foldl
        (fun cost count =>
          if count = 0 then cost
          else cost - (count : ℚ) * fops.flog (((count : ℚ) + epsilon) / denom))
        0
    let changePoints := sortedNat (cpRecurse segCost minSegment penalty n 1 n)
    let lastStart := match changePoints.getLast? with
      | some c => c + 1
      | none => 1
    let lastSegment := segmentDraws.drop (lastStart - 1)
    dirichletProbabilities lastSegment 1

/-! ## `build_recommendations` (recommender.py, module level) -/

/-- `build_recommendations(draws, seed, lang)`.  `none` = the balanced-mix
candidate fill loop diverged on this stream (see the module comment); any
other control path of the source yields `some`. -/
def buildRecommendations (env : Env) (fillFuel : Nat) (draws : List DrawRec)
    (seed : Option String) (lang : String) : Option (List Recommendation) :=
  if draws.isEmpty then some [] else
  let lang := if lang = "en" then "en" else "zh"
  let eng := mkEngine draws lang
  let balancedRes := engineGenerateFull eng 1 (2/5) fillFuel (pyRandomOfSeed env seed)
  match balancedRes.1 with
  | none => none
  | some balanced =>
    let rec0 : List Recommendation := match balanced with | [] => [] | b :: _ => [b]
    let fops := env.ops.fops
    let freqNumbers := topNumbersOf eng.mainCounts 7
    let freqRec := buildRecommendation eng freqNumbers "PureFrequencyTop7"
      (some (langText lang "高频直选 Top7" "Pure Frequency Top 7"))
      (some (langText lang "仅按历史出现频率取前 7 个号码" "Top 7 by historical frequency only"))
      (some [langText lang "统计所有历史主号出现次数，按频次降序取前 7 个"
               "Count main-number frequencies and take the top 7",
             langText lang "不做平滑、结构约束或随机扰动"
               "No smoothing, structure constraints, or randomization"])
      none
    let drawNumbers := drawNumbersSorted draws
    let rng0 := seededRandom env 1 seed "algorithms"
    let pHat := dirichletProbabilities drawNumbers 1
    let alg1 := weightedSampleWithoutReplacement fops pHat 7 rng0
    let rec1 := buildRecommendation eng alg1.1 "BayesianSmoothedNumberProbabilities_Dirichlet"
      (some (langText lang "Dirichlet 平滑概率" "Dirichlet Smoothed Probabilities"))
      (some (langText lang "Dirichlet 平滑后验概率抽样" "Sample from Dirichlet-smoothed posteriors"))
      (some [langText lang "用 Dirichlet 先验平滑频次，得到后验概率"
               "Apply a Dirichlet prior to smooth frequencies",
             langText lang "按后验概率进行无放回抽样生成号码"
               "Sample without replacement using posterior weights"])
      none
    let zStats := binomialZScores fops drawNumbers
    let alg2 := topKByValueDesc zStats 7
    let rec2 := buildRecommendation eng (sortedNat alg2) "SingleNumberSignificanceTest_BinomialZ"
      (some (langText lang "二项显著性 Z 分数" "Binomial Z-Score Significance"))
      (some (langText lang "二项分布 z-score 最高的号码" "Top numbers by binomial z-score"))
      (some [langText lang "计算每个号码的出现次数与理论期望的 z-score"
               "Compute z-scores vs. theoretical expectation",
             langText lang "选取 z-score 最高的 7 个号码（偏高频显著）"
               "Pick the 7 highest z-scores (significantly high frequency)"])
      none
    let ewma := ewmaScores drawNumbers 200 1 (1/5)
    let alg3 := topKByValueDesc ewma 7
    let rec3 := buildRecommendation eng (sortedNat alg3) "WindowedBayesianHotness_EWMA"
      (some (langText lang "EWMA 近期热度" "EWMA Recent Hotness"))
      (some (langText lang "滑动窗口 + EWMA 的近期热度" "Windowed Bayesian + EWMA recency score"))
      (some [langText lang "在最近窗口内做 Dirichlet 平滑"
               "Apply Dirichlet smoothing within a rolling window",
             langText lang "对窗口概率做 EWMA 更新，强调近期走势"
               "EWMA update emphasizes recent trends"])
      none
    let alg4 := featureDistributionTicket fops drawNumbers alg1.2
    let rec4 := buildRecommendation eng (sortedNat alg4.1) "FeatureDistributionTest_MonteCarlo"
      (some (langText lang "Monte Carlo 特征匹配" "Monte Carlo Feature Match"))
      (some (langText lang "Monte Carlo 选择特征分布最接近历史的组合"
               "Pick tickets whose features match history"))
      (some [langText lang "模拟大量随机票，计算和值/奇偶/大小/连号等特征"
               "Simulate many tickets and compute feature stats",
             langText lang "选择特征最接近历史分布的组合"
               "Choose the ticket closest to historical distributions"])
      none
    let alg5 := antiCrowdTicket alg4.2
    let rec5 := buildRecommendation eng (sortedNat alg5.1) "AntiCrowdNumberSelection_PopularityPenalty"
      (some (langText lang "反热门防撞号" "Anti-Crowd Selection"))
      (some (langText lang "降低撞号概率的反热门组合" "Reduce shared picks with popularity penalties"))
      (some [langText lang "惩罚生日号偏多、连号、尾号集中、等差数列等模式"
               "Penalize birthday-heavy, consecutive, same-tail, and patterned sets",
             langText lang "在大量候选中选择惩罚分最低的组合"
               "Choose the lowest-penalty ticket from many candidates"])
      none
    let segmentProbs := changePointSegmentProbabilities fops drawNumbers
    let alg6 := topKByValueDesc segmentProbs 7
    let rec6 := buildRecommendation eng (sortedNat alg6) "ChangePointDetection_NumberFrequencies"
      (some (langText lang "变点检测分段概率" "Change-Point Segment Probabilities"))
      (some (langText lang "变点检测后，使用最新区段概率"
               "Use smoothed probabilities from the latest segment"))
      (some [langText lang "用变点检测把历史分段，取最新段的平滑概率"
               "Segment history via change-point detection",
             langText lang "按该段概率排序选取 7 个号码"
               "Select 7 numbers from the latest segment ranking"])
      none
    let alg7 := weightedSampleWithoutReplacement fops ewma 7 (seededRandom env 2 seed "alg7")
    let rec7 := buildRecommendation eng (sortedNat alg7.1) "WeightedSamplingWithoutReplacement_TicketGenerator"
      (some (langText lang "加权无放回抽样" "Weighted Sampling (No Replacement)"))
      (some (langText lang "基于权重的无放回抽样生成"
               "Sample without replacement from weighted scores"))
      (some [langText lang "使用 EWMA 权重进行无放回抽样" "Use EWMA weights for sampling",
             langText lang "保持随机性同时体现权重偏好"
               "Keeps randomness while reflecting weights"])
      none
    some (rec0 ++ [freqRec, rec1, rec2, rec3, rec4, rec5, rec6, rec7])

/-! ## Predictive model (ai.py) -/

/-- The `meta` dict of `predict_next_draw_probabilities`. -/
structure PredictMeta where
  draws_used : Nat
  samples : Nat
  hidden_size : Nat
  epochs : Nat
  learning_rate : ℚ
  deriving DecidableEq, Repr

/-- The result dict of `predict_next_draw_probabilities`. -/
structure PredictResult where
  probabilities : List (Nat × ℚ)
  top_numbers : List Nat
  meta : PredictMeta
  deriving DecidableEq, Repr

/-- `_multi_hot(numbers, max_number)`. -/
def multiHot (numbers : List Nat) (maxNumber : Nat) : List ℚ :=
  numbers.foldl
    (fun vec n => if 1 ≤ n ∧ n ≤ maxNumber then vec.set (n - 1) 1 else vec)
    (List.replicate maxNumber 0)

/-- `_build_training_pairs(draws, max_samples, max_number)`. -/
def buildTrainingPairs (draws : List DrawRec) (maxSamples : Nat) (maxNumber : Nat) :
    List (List ℚ) × List (List ℚ) :=
  let pairs := (List.zip draws draws.tail).map
    (fun p => (multiHot p.1.numbers maxNumber, multiHot p.2.numbers maxNumber))
  let pairs :=
    if maxSamples ≠ 0 ∧ maxSamples < pairs.length
    then pairs.drop (pairs.length - maxSamples) else pairs
  (pairs.map Prod.fst, pairs.map Prod.snd)

/-- `_dot_col(x, matrix, col)`. -/
def dotCol (x : List ℚ) (matrix : List (List ℚ)) (col : Nat) : ℚ :=
  ((List.range x.length).map (fun i => x.getD i 0 * ((matrix.getD i []).getD col 0))).sum

/-- `_dot_row(h, matrix, col)`. -/
def dotRow (h : List ℚ) (matrix : List (List ℚ)) (col : Nat) : ℚ :=
  ((List.range h.length).map (fun j => h.getD j 0 * ((matrix.getD j []).getD col 0))).sum

/-- The weight dict returned by `_train_mlp`. -/
structure MlpModel where
  w1 : List (List ℚ)
  b1 : List ℚ
  w2 : List (List ℚ)
  b2 : List ℚ

/-- A row of `rng.uniform(-0.08, 0.08)` draws. -/
def rngUniformRow (a b : ℚ) : Nat → Rng → List ℚ × Rng
  | 0, r => ([], r)
  | n + 1, r =>
      let u := rngUniform r a b
      let rest := rngUniformRow a b n u.2
      (u.1 :: rest.1, rest.2)

/-- A row-major matrix of `rng.uniform(a, b)` draws. -/
def rngUniformMat (a b : ℚ) : Nat → Nat → Rng → List (List ℚ) × Rng
  | 0, _, r => ([], r)
  | rows + 1, cols, r =>
      let row := rngUniformRow a b cols r
      let rest := rngUniformMat a b rows cols row.2
      (row.1 :: rest.1, rest.2)

/-- One SGD step of `_train_mlp` on a single `(x, y)` pair (the sigmoid is the
ambient `sig`). -/
def trainSample (sig : ℚ → ℚ) (lr : ℚ) (hidden out inSize : Nat)
    (m : MlpModel) (x y : List ℚ) : MlpModel :=
  let z1 := (List.range hidden).map (fun j => m.b1.getD j 0 + dotCol x m.w1 j)
  let h := z1.map (fun z => max 0 z)
  let z2 := (List.range out).map (fun k => m.b2.getD k 0 + dotRow h m.w2 k)
  let yhat := z2.map sig
  let delta2 := (List.range out).map (fun k => yhat.getD k 0 - y.getD k 0)
  let delta1 := (List.range hidden).map (fun j =>
    let back := ((List.range out).map
      (fun k => delta2.getD k 0 * ((m.w2.getD j []).getD k 0))).sum
    if 0 < z1.getD j 0 then back else 0)
  let w2 := (List.range hidden).map (fun j => (List.range out).map (fun k =>
    (m.w2.getD j []).getD k 0 - lr * delta2.getD k 0 * h.getD j 0))
  let b2 := (List.range out).map (fun k => m.b2.getD k 0 - lr * delta2.getD k 0)
  let w1 := (List.range inSize).map (fun i =>
    if x.getD i 0 = 0 then m.w1.getD i []
    else (List.range hidden).map (fun j =>
      (m.w1.getD i []).getD j 0 - lr * delta1.getD j 0 * x.getD i 0))
  let b1 := (List.range hidden).map (fun j => m.b1.getD j 0 - lr * delta1.getD j 0)
  { w1 := w1, b1 := b1, w2 := w2, b2 := b2 }

/-- `_train_mlp(inputs, targets, ...)`. -/
def trainMlp (fops : FloatOps) (inputs targets : List (List ℚ)) (hidden epochs : Nat)
    (lr : ℚ) (r : Rng) (maxNumber : Nat) : MlpModel × Rng :=
  let w1r := rngUniformMat (-(2/25)) (2/25) maxNumber hidden r
  let w2r := rngUniformMat (-(2/25)) (2/25) hidden maxNumber w1r.2
  let init : MlpModel :=
    ⟨w1r.1, List.replicate hidden 0, w2r.1, List.replicate maxNumber 0⟩
  let pairs := List.zip inputs targets
  let final := (List.range (max epochs 1)).foldl
    (fun m _ =>
      pairs.foldl (fun m p => trainSample fops.sigmoid lr hidden maxNumber maxNumber m p.1 p.2) m)
    init
  (final, w2r.2)

/-- `_forward(model, x)`. -/
def forwardMlp (fops : FloatOps) (m : MlpModel) (x : List ℚ) : List ℚ :=
  let hidden := m.b1.length
  let out := m.b2.length
  let z1 := (List.range hidden).map (fun j => m.b1.getD j 0 + dotCol x m.w1 j)
  let h := z1.map (fun z => max 0 z)
  let z2 := (List.range out).map (fun k => m.b2.getD k 0 + dotRow h m.w2 k)
  z2.map fops.sigmoid

/-- `predict_next_draw_probabilities(draws, seed, ...)`.  Note the source
seeds its generator with `random.Random(seed or 42)`: a `None` (or empty)
seed falls back to the fixed integer seed 42, so the ambient entropy is never
consulted. -/
def predictNextDrawProbabilities (env : Env) (draws : List DrawRec)
    (seed : Option String) (maxSamples hiddenSize epochs : Nat)
    (learningRate : ℚ) (maxNumber mainCount : Nat) : PredictResult :=
  let ordered := stableSortBy (fun a b : DrawRec => decide (a.date < b.date)) draws
  if ordered.length < 2 then
    { probabilities := (List.range' 1 maxNumber).map (fun i => (i, 0)),
      top_numbers := [],
      meta := { draws_used := ordered.length, samples := 0, hidden_size := hiddenSize,
                epochs := 0, learning_rate := learningRate } }
  else
    let tp := buildTrainingPairs ordered maxSamples maxNumber
    let rng := match seed with
      | none => mkRng (env.ops.mt 42)
      | some s => if s.isEmpty then mkRng (env.ops.mt 42) else mkRng (env.ops.strSeed s)
    let tm := trainMlp env.ops.fops tp.1 tp.2 hiddenSize epochs learningRate rng maxNumber
    let lastDraw := ordered.getLastD ⟨0, [], 0⟩
    let x := multiHot lastDraw.numbers maxNumber
    let probs := forwardMlp env.ops.fops tm.1 x
    let probabilityList := probs.enum.map (fun p => (p.1 + 1, p.2))
    let topNums :=
      ((stableSortBy (fun a b : Nat × ℚ => decide (b.2 < a.2)) probabilityList).take
        mainCount).map Prod.fst
    { probabilities := probabilityList,
      top_numbers := topNums,
      meta := { draws_used := ordered.length, samples := tp.1.length,
                hidden_size := hiddenSize, epochs := epochs,
                learning_rate := learningRate } }

/-! ## Lemmas about `computeOmissions` -/

theorem lookup_map_pairs (n : Nat) (l : List Nat) (f : Nat → Nat) (h : n ∈ l) :
    List.lookup n (l.map (fun m => (m, f m))) = some (f n) := by
  induction l with
  | nil => cases h
  | cons x xs ih =>
    simp only [List.map_cons, List.lookup_cons]
    by_cases hx : x = n
    · subst hx; simp
    · have hbe : (n == x) = false := by
        simpa using fun hh => hx hh.symm
      rw [hbe]
      simp only [List.mem_cons] at h
      exact ih (h.resolve_left (fun hh => hx hh.symm))

theorem computeOmissions_lookup (draws : List DrawRec) (n : Nat)
    (h1 : 1 ≤ n) (h2 : n ≤ 50) :
    List.lookup n (computeOmissions draws)
      = some ((draws.findIdx? (fun d => n ∈ d.numbers)).getD draws.length) := by
  have hmem : n ∈ List.range' 1 50 := by
    rw [List.mem_range'_1]; omega
  unfold computeOmissions
  rw [lookup_map_pairs n (List.range' 1 50) _ hmem]
  rw [omissionState_eq]
  cases hfi : draws.findIdx? (fun d => n ∈ d.numbers) with
  | none => simp
  | some i => simp

/-! ## Example environments and inputs used by witnesses and counterexamples -/

/-- A concrete `FloatOps` instance (any choice is a valid float model for the
purposes of the counterexamples; values do not affect the refuted shapes). -/
def witFops : FloatOps := ⟨fun _ _ => 0, fun _ => 0, fun _ => 0, fun _ => 0⟩

/-- A concrete deterministic-map instance. -/
def witOps : DetOps := ⟨fun _ i => i, fun _ i => i, fun _ => 7, witFops⟩

/-- A concrete full environment. -/
def witEnv : Env := ⟨witOps, fun _ i => i + 3⟩

/-- A single valid draw whose numbers are 1..7 (historical sums all 28). -/
def oneDraw : List DrawRec := [⟨0, [1, 2, 3, 4, 5, 6, 7], 8⟩]

/-- Two valid draws in which 7 is the only repeated number, so the frequency
ranking starts with 7. -/
def twoDraws : List DrawRec :=
  [⟨0, [1, 2, 3, 4, 5, 6, 7], 8⟩, ⟨1, [7, 10, 11, 12, 13, 14, 15], 16⟩]

/-! ## Claim C4 -/

/-- C4: for every draw list (scanned most-recent-first, index 0 first) and
every number 1..50, the omission reported by the statistics engine is the
index of the first draw whose *main* numbers contain it, and the total draw
count when never seen; in particular a number in every draw gets 0 and a
number in no draw gets the total count. -/
theorem omission_is_most_recent_index (draws : List DrawRec) (n : Nat)
    (h1 : 1 ≤ n) (h2 : n ≤ 50) :
    List.lookup n (computeOmissions draws)
      = some ((draws.findIdx? (fun d => n ∈ d.numbers)).getD draws.length)
    ∧ ((∀ d ∈ draws, n ∈ d.numbers) →
        List.lookup n (computeOmissions draws) = some 0)
    ∧ ((∀ d ∈ draws, n ∉ d.numbers) →
        List.lookup n (computeOmissions draws) = some draws.length) := by
  refine ⟨computeOmissions_lookup draws n h1 h2, ?_, ?_⟩
  · intro hall
    rw [computeOmissions_lookup draws n h1 h2]
    cases draws with
    | nil => simp
    | cons d rest =>
      rw [List.findIdx?_cons]
      have : n ∈ d.numbers := hall d (by simp)
      simp [this]
  · intro hnone
    rw [computeOmissions_lookup draws n h1 h2]
    have : draws.findIdx? (fun d => n ∈ d.numbers) = none := by
      rw [List.findIdx?_eq_none_iff]
      intro d hd
      simpa using hnone d hd
    simp [this]

/-- Witness for C4 at a concrete input (number 5, one draw containing it). -/
theorem omission_is_most_recent_index_witness :
    (1 ≤ 5 ∧ 5 ≤ 50) ∧
    List.lookup 5 (computeOmissions twoDraws)
      = some ((twoDraws.findIdx? (fun d => 5 ∈ d.numbers)).getD twoDraws.length) :=
  ⟨by decide, (omission_is_most_recent_index twoDraws 5 (by decide) (by decide)).1⟩

/-! ## Claim C10 -/

theorem omissionState_map_bonus (draws : List DrawRec) (g : DrawRec → Nat) :
    ∀ (idx : Nat) (st : Nat → Option Nat),
      omissionState (draws.map (fun d => ⟨d.date, d.numbers, g d⟩)) idx st
        = omissionState draws idx st := by
  induction draws with
  | nil => intro idx st; rfl
  | cons d rest ih =>
    intro idx st
    simp only [List.map_cons, omissionState]
    exact ih (idx + 1) _

/-- C10: omission tracking reads only main numbers — replacing every bonus by
anything leaves the omission table unchanged, and a number appearing in no
draw's main numbers (even if it is some draw's bonus) gets omission equal to
the total draw count. -/
theorem omission_ignores_bonus (draws : List DrawRec) (n : Nat) (g : DrawRec → Nat)
    (h1 : 1 ≤ n) (h2 : n ≤ 50) :
    computeOmissions (draws.map (fun d => ⟨d.date, d.numbers, g d⟩))
      = computeOmissions draws
    ∧ ((∀ d ∈ draws, n ∉ d.numbers) →
        List.lookup n (computeOmissions draws) = some draws.length) := by
  constructor
  · unfold computeOmissions
    rw [omissionState_map_bonus, List.length_map]
  · exact (omission_is_most_recent_index draws n h1 h2).2.2

/-- Witness for C10: number 8 appears only as a bonus of the most recent of
two draws; its reported omission is the total draw count 2, and rewriting all
bonuses to 0 changes nothing. -/
theorem omission_ignores_bonus_witness :
    (∀ d ∈ twoDraws, 8 ∉ d.numbers) ∧
    computeOmissions (twoDraws.map (fun d => ⟨d.date, d.numbers, (fun _ => 0) d⟩))
      = computeOmissions twoDraws ∧
    List.lookup 8 (computeOmissions twoDraws) = some twoDraws.length := by
  have h := omission_ignores_bonus twoDraws 8 (fun _ => 0) (by decide) (by decide)
  exact ⟨by decide, h.1, h.2 (by decide)⟩

/-! ## Claim C5 -/

/-- C5: degenerate inputs yield well-defined defaults — the empty draw list
makes `build_recommendations` return the empty batch, and fewer than 2 draws
make the predictive model return all-zero probabilities, no top numbers, and
`meta.samples = 0` (with `epochs` reported as 0). -/
theorem degenerate_inputs_default (env : Env) (fillFuel : Nat) (seed : Option String)
    (lang : String) (draws : List DrawRec) (maxSamples hiddenSize epochs : Nat)
    (learningRate : ℚ) (maxNumber mainCount : Nat) (h : draws.length < 2) :
    buildRecommendations env fillFuel [] seed lang = some []
    ∧ predictNextDrawProbabilities env draws seed maxSamples hiddenSize epochs
        learningRate maxNumber mainCount
      = { probabilities := (List.range' 1 maxNumber).map (fun i => (i, 0)),
          top_numbers := [],
          meta := { draws_used := draws.length, samples := 0, hidden_size := hiddenSize,
                    epochs := 0, learning_rate := learningRate } } := by
  constructor
  · simp [buildRecommendations]
  · simp only [predictNextDrawProbabilities, stableSortBy_length]
    rw [if_pos h]

/-- Witness for C5 at the empty draw list. -/
theorem degenerate_inputs_default_witness :
    ([] : List DrawRec).length < 2 ∧
    predictNextDrawProbabilities witEnv [] none 400 24 25 (3/20) 50 7
      = { probabilities := (List.range' 1 50).map (fun i => (i, 0)),
          top_numbers := [],
          meta := { draws_used := 0, samples := 0, hidden_size := 24, epochs := 0,
                    learning_rate := 3/20 } } := by
  refine ⟨by decide, ?_⟩
  have h := (degenerate_inputs_default witEnv 5 none "zh" [] 400 24 25 (3/20) 50 7
    (by decide)).2
  simpa using h

/-! ## Claim C2 -/

/-- C2: with a given seed string, `build_recommendations` is a function of
(draws, seed, lang) only — two calls under different ambient OS entropy (the
only per-call input) give identical batches, numbers, metrics and texts. -/
theorem buildRecommendations_deterministic (ops : DetOps) (e₁ e₂ : Nat → Nat → Nat)
    (fillFuel : Nat) (draws : List DrawRec) (s lang : String) :
    buildRecommendations ⟨ops, e₁⟩ fillFuel draws (some s) lang
      = buildRecommendations ⟨ops, e₂⟩ fillFuel draws (some s) lang := rfl

/-! ## Claim C9 -/

/-- C9 counterexample: with `seed=None` the predictive model is *not*
re-randomized per call — `random.Random(seed or 42)` falls back to the fixed
integer seed 42, so two calls under different ambient entropy (here the
streams `i ↦ i` and `i ↦ i + 1`) return identical results. -/
theorem predict_seed_none_same_output :
    ((fun _ i : Nat => i) : Nat → Nat → Nat) 0 0
        ≠ ((fun _ i : Nat => i + 1) : Nat → Nat → Nat) 0 0
    ∧ predictNextDrawProbabilities ⟨witOps, fun _ i => i⟩ twoDraws none 400 24 25
        (3/20) 50 7
      = predictNextDrawProbabilities ⟨witOps, fun _ i => i + 1⟩ twoDraws none 400 24 25
        (3/20) 50 7 :=
  ⟨by decide, rfl⟩

/-- C9 amended: `predict_next_draw_probabilities` never consults the per-call
entropy — for *every* seed (including `None`, which falls back to the fixed
default 42) its output is determined by the draws and parameters alone; the
unseeded-source behaviour the claim describes does hold for the recommender's
`_seeded_random(None, salt)`, which returns an entropy-backed generator. -/
theorem predict_entropy_independent (ops : DetOps) (e₁ e₂ : Nat → Nat → Nat)
    (draws : List DrawRec) (seed : Option String) (maxSamples hiddenSize epochs : Nat)
    (learningRate : ℚ) (maxNumber mainCount : Nat) :
    predictNextDrawProbabilities ⟨ops, e₁⟩ draws seed maxSamples hiddenSize epochs
        learningRate maxNumber mainCount
      = predictNextDrawProbabilities ⟨ops, e₂⟩ draws seed maxSamples hiddenSize epochs
        learningRate maxNumber mainCount
    ∧ (∀ env : Env, ∀ site : Nat, ∀ salt : String,
        seededRandom env site none salt = mkRng (env.entropy site)) := by
  constructor
  · cases seed with
    | none => rfl
    | some s => rfl
  · intro env site salt; rfl

/-! ## Claim C8 -/

/-- C8 counterexample: initialized from an empty draw list, the engine's cold
set is `[1..10]` (all fifty omissions are zero and the stable reverse sort
keeps numeric order, so the `range(41, 51)` fallback is dead code), not
`[41..50]`. -/
theorem engine_empty_cold_not_41_50 :
    (mkEngine [] "zh").coldNumbers = [1, 2, 3, 4, 5, 6, 7, 8, 9, 10]
    ∧ (mkEngine [] "zh").coldNumbers ≠ List.range' 41 10 := by
  constructor
  · decide
  · decide

/-- C8 amended: on an empty draw list the hot numbers default to 1..10 as
claimed, but the cold numbers also come out as 1..10 — the top 10 of the
stable omission sort — rather than the unreachable 41..50 default. -/
theorem engine_empty_defaults (lang : String) :
    (mkEngine [] lang).hotNumbers = List.range' 1 10
    ∧ (mkEngine [] lang).coldNumbers = List.range' 1 10 := by
  exact ⟨rfl, rfl⟩

/-! ## Claim C6 -/

theorem genLoop_bounds (eng : EngineState) (count : Nat) (maxSim : ℚ) (fillFuel : Nat)
    (budget : Nat) :
    ∀ (r : Rng) (recs : List Recommendation), recs.length ≤ count →
      (genLoop eng count maxSim fillFuel budget r recs).2.2 ≤ budget
      ∧ (∀ out, (genLoop eng count maxSim fillFuel budget r recs).1 = some out →
          out.length ≤ count) := by
  induction budget with
  | zero =>
    intro r recs h
    refine ⟨by simp [genLoop], ?_⟩
    intro out hout
    simp only [genLoop] at hout
    injection hout with hout
    exact hout ▸ h
  | succ b ih =>
    intro r recs h
    simp only [genLoop]
    by_cases hc : count ≤ recs.length
    · simp only [hc, if_true]
      exact ⟨Nat.zero_le _, fun out hout => by
        injection hout with hout; exact hout ▸ h⟩
    · simp only [hc, if_false]
      cases hcand : (buildCandidate eng fillFuel r).1 with
      | none =>
        simp only [hcand]
        exact ⟨by omega, fun out hout => by cases hout⟩
      | some ns =>
        simp only [hcand]
        have hlt : recs.length < count := Nat.lt_of_not_le hc
        have hlen : (acceptCandidate eng maxSim recs ns).length ≤ count := by
          unfold acceptCandidate
          split_ifs with h1 h2
          any_goals exact h
          simp only [List.length_append, List.length_cons, List.length_nil]
          omega
        have hres := ih (buildCandidate eng fillFuel r).2 _ hlen
        exact ⟨by omega, hres.2⟩

/-- C6: the generation loop performs at most `count × 300` candidate
constructions and, whenever it returns (the fuelled inner fill loop not
having diverged), yields at most `count` recommendations — for every draw
history, even one whose constraints reject every candidate. -/
theorem generate_attempt_cap (eng : EngineState) (count : Nat) (maxSim : ℚ)
    (fillFuel : Nat) (r : Rng) :
    (engineGenerateFull eng count maxSim fillFuel r).2.2 ≤ count * 300
    ∧ (∀ out, (engineGenerateFull eng count maxSim fillFuel r).1 = some out →
        out.length ≤ count) :=
  genLoop_bounds eng count maxSim fillFuel (count * 300) r [] (by simp)

/-- Witness for C6: a concrete run (count 1, the single draw 1..7, identity
stream) stays within the cap and under the count. -/
theorem generate_attempt_cap_witness :
    (engineGenerateFull (mkEngine oneDraw "zh") 0 (2/5) 30 (mkRng fun i => i)).2.2
        ≤ 0 * 300
    ∧ ([] : List Recommendation).length ≤ 0 :=
  ⟨(generate_attempt_cap (mkEngine oneDraw "zh") 0 (2/5) 30 (mkRng fun i => i)).1,
   (generate_attempt_cap (mkEngine oneDraw "zh") 0 (2/5) 30 (mkRng fun i => i)).2 []
     (by rfl)⟩

/-! ## Claim C7 -/

/-- The pairwise bound the diversity filter enforces. -/
def jacBounded (maxSim : ℚ) (r1 r2 : Recommendation) : Prop :=
  jaccardQ r1.numbers.toFinset r2.numbers.toFinset ≤ maxSim

/-- All (unordered) pairs of a batch are `jacBounded` (`none` = diverged). -/
def batchJacBounded (maxSim : ℚ) : Option (List Recommendation) → Prop
  | none => True
  | some recs => List.Pairwise (jacBounded maxSim) recs

theorem jaccardQ_comm (a b : Finset Nat) : jaccardQ a b = jaccardQ b a := by
  simp [jaccardQ, Finset.inter_comm, Finset.union_comm]

theorem buildRecommendation_numbers (eng : EngineState) (ns : List Nat) (alg : String)
    (l s : Option String) (e : Option (List String)) (lg : Option String) :
    (buildRecommendation eng ns alg l s e lg).numbers = ns := rfl

theorem buildRecommendation_algorithm (eng : EngineState) (ns : List Nat) (alg : String)
    (l s : Option String) (e : Option (List String)) (lg : Option String) :
    (buildRecommendation eng ns alg l s e lg).algorithm = alg := rfl

theorem genLoop_jaccard (eng : EngineState) (count : Nat) (maxSim : ℚ) (fillFuel : Nat)
    (budget : Nat) :
    ∀ (r : Rng) (recs : List Recommendation), List.Pairwise (jacBounded maxSim) recs →
      batchJacBounded maxSim (genLoop eng count maxSim fillFuel budget r recs).1 := by
  induction budget with
  | zero =>
    intro r recs h
    simpa [genLoop, batchJacBounded] using h
  | succ b ih =>
    intro r recs h
    simp only [genLoop]
    by_cases hc : count ≤ recs.length
    · simpa [hc, batchJacBounded] using h
    · simp only [hc, if_false]
      cases hcand : (buildCandidate eng fillFuel r).1 with
      | none => simp [batchJacBounded]
      | some ns =>
        simp only [hcand]
        refine ih _ _ ?_
        unfold acceptCandidate
        split_ifs with h1 h2
        any_goals exact h
        rw [List.pairwise_append]
        refine ⟨h, by simp, ?_⟩
        intro a ha b hb
        rw [List.mem_singleton] at hb
        subst hb
        have hall : ∀ rec ∈ recs,
            ¬ maxSim < jaccardQ ns.toFinset rec.numbers.toFinset := by
          intro rec hrec
          rw [Bool.not_eq_true, List.any_eq_false] at h2
          simpa using h2 rec hrec
        unfold jacBounded
        rw [buildRecommendation_numbers, jaccardQ_comm]
        exact le_of_not_lt (hall a ha)

/-- C7: within one `generate` batch, any two accepted recommendations have
Jaccard similarity at most 0.4 (= 2/5): the invariant is preserved by every
acceptance step of the loop (first conjunct, for any reachable loop state),
so in particular it holds of the finished batch (second conjunct). -/
theorem generate_jaccard_invariant (eng : EngineState) (count : Nat) (fillFuel : Nat) :
    (∀ (budget : Nat) (r : Rng) (recs : List Recommendation),
        List.Pairwise (jacBounded (2/5)) recs →
        batchJacBounded (2/5) (genLoop eng count (2/5) fillFuel budget r recs).1)
    ∧ ∀ r : Rng, batchJacBounded (2/5) (engineGenerate eng count (2/5) fillFuel r) := by
  refine ⟨fun budget => genLoop_jaccard eng count (2/5) fillFuel budget, ?_⟩
  intro r
  exact genLoop_jaccard eng count (2/5) fillFuel (count * 300) r [] (by simp)

/-- Witness for C7 at a concrete engine, stream and loop state. -/
theorem generate_jaccard_invariant_witness :
    batchJacBounded (2/5)
      (genLoop (mkEngine oneDraw "zh") 2 (2/5) 30 0 (mkRng fun i => i) []).1 :=
  (generate_jaccard_invariant (mkEngine oneDraw "zh") 2 30).1 0 (mkRng fun i => i) []
    (by simp)

/-! ## Concrete constant-stream runs (used to refute C1 and C3)

With every raw stream constantly 7 (a legitimate behaviour of the abstract
PRNG maps) the balanced-mix candidate is the same on every attempt, its
pre-fill selection already has 7 elements (so the fill loop returns at once,
whatever its fuel), and it is rejected by the sum constraint — the histories
below have `sum_range = (28, 28)` while every candidate carries two cold
numbers ≥ 8. -/

/-- Deterministic maps whose streams are constantly 7. -/
def cexOps : DetOps := ⟨fun _ _ => 7, fun _ _ => 7, fun _ => 7, witFops⟩

/-- Environment whose every stream is constantly 7. -/
def cexEnv : Env := ⟨cexOps, fun _ _ => 7⟩

/-- `mkEngine oneDraw "zh"`, written out. -/
def engOneLit : EngineState :=
  { draws := oneDraw, lang := "zh",
    mainCounts := [(1, 1), (2, 1), (3, 1), (4, 1), (5, 1), (6, 1), (7, 1)],
    hotNumbers := [1, 2, 3, 4, 5, 6, 7],
    coldNumbers := [8, 9, 10, 11, 12, 13, 14, 15, 16, 17],
    neutralPool := [18, 19, 20, 21, 22, 23, 24, 25, 26, 27, 28, 29, 30, 31, 32, 33,
      34, 35, 36, 37, 38, 39, 40, 41, 42, 43, 44, 45, 46, 47, 48, 49, 50],
    targetOdd := 4, targetSmall := 7, sumRange := (28, 28),
    commonPairs := [(1, 2), (1, 3), (1, 4), (1, 5), (1, 6), (1, 7), (2, 3), (2, 4),
      (2, 5), (2, 6), (2, 7), (3, 4), (3, 5), (3, 6), (3, 7)] }

theorem engOneLit_eq : mkEngine oneDraw "zh" = engOneLit := by decide

/-- `mkEngine twoDraws "zh"`, written out. -/
def engTwoLit : EngineState :=
  { draws := twoDraws, lang := "zh",
    mainCounts := [(1, 1), (2, 1), (3, 1), (4, 1), (5, 1), (6, 1), (7, 2), (10, 1),
      (11, 1), (12, 1), (13, 1), (14, 1), (15, 1)],
    hotNumbers := [7, 1, 2, 3, 4, 5, 6, 10, 11, 12],
    coldNumbers := [8, 9, 16, 17, 18, 19, 20, 21, 22, 23],
    neutralPool := [13, 14, 15, 24, 25, 26, 27, 28, 29, 30, 31, 32, 33, 34, 35, 36,
      37, 38, 39, 40, 41, 42, 43, 44, 45, 46, 47, 48, 49, 50],
    targetOdd := 4, targetSmall := 7, sumRange := (28, 28),
    commonPairs := [(1, 2), (1, 3), (1, 4), (1, 5), (1, 6), (1, 7), (2, 3), (2, 4),
      (2, 5), (2, 6), (2, 7), (3, 4), (3, 5), (3, 6), (3, 7)] }

theorem engTwoLit_eq : mkEngine twoDraws "zh" = engTwoLit := by decide

set_option maxHeartbeats 1000000 in
theorem buildCandidate_engOne_const (fuel pos : Nat) :
    buildCandidate engOneLit fuel ⟨fun _ => 7, pos⟩
      = (some [1, 2, 3, 4, 5, 15, 16], ⟨fun _ => 7, pos + 6⟩) := by
  cases fuel <;>
    simp [buildCandidate, candidateSel, hotSelOf, coldSelOf, pairSelOf, engOneLit,
      rngSample, rngChoice, Rng.next, pyInsert, fillSelection, sortedNat,
      stableSortBy, insOrd, List.filter, List.range']

set_option maxHeartbeats 1000000 in
theorem buildCandidate_engTwo_const (fuel pos : Nat) :
    buildCandidate engTwoLit fuel ⟨fun _ => 7, pos⟩
      = (some [2, 4, 10, 11, 12, 21, 22], ⟨fun _ => 7, pos + 6⟩) := by
  cases fuel <;>
    simp [buildCandidate, candidateSel, hotSelOf, coldSelOf, pairSelOf, engTwoLit,
      rngSample, rngChoice, Rng.next, pyInsert, fillSelection, sortedNat,
      stableSortBy, insOrd, List.filter, List.range']

theorem engOne_rejects : passesConstraints engOneLit [1, 2, 3, 4, 5, 15, 16] = false := by
  decide

theorem engTwo_rejects : passesConstraints engTwoLit [2, 4, 10, 11, 12, 21, 22] = false := by
  decide

theorem genLoop_engOne_const (count fillFuel : Nat) (maxSim : ℚ) (budget : Nat) :
    ∀ (pos : Nat) (recs : List Recommendation),
      (genLoop engOneLit count maxSim fillFuel budget ⟨fun _ => 7, pos⟩ recs).1
        = some recs := by
  induction budget with
  | zero => intro pos recs; rfl
  | succ b ih =>
    intro pos recs
    simp only [genLoop]
    by_cases hc : count ≤ recs.length
    · simp [hc]
    · simp only [hc, if_false]
      rw [buildCandidate_engOne_const fillFuel pos]
      simp only [acceptCandidate, engOne_rejects, Bool.false_eq_true, not_false_eq_true,
        if_true]
      exact ih (pos + 6) recs

theorem genLoop_engTwo_const (count fillFuel : Nat) (maxSim : ℚ) (budget : Nat) :
    ∀ (pos : Nat) (recs : List Recommendation),
      (genLoop engTwoLit count maxSim fillFuel budget ⟨fun _ => 7, pos⟩ recs).1
        = some recs := by
  induction budget with
  | zero => intro pos recs; rfl
  | succ b ih =>
    intro pos recs
    simp only [genLoop]
    by_cases hc : count ≤ recs.length
    · simp [hc]
    · simp only [hc, if_false]
      rw [buildCandidate_engTwo_const fillFuel pos]
      simp only [acceptCandidate, engTwo_rejects, Bool.false_eq_true, not_false_eq_true,
        if_true]
      exact ih (pos + 6) recs

/-! ## Claim C1 -/

/-- The algorithm identifiers of the eight always-present fixed entries of
`build_recommendations`, in construction order. -/
def fixedAlgorithms : List String :=
  ["PureFrequencyTop7", "BayesianSmoothedNumberProbabilities_Dirichlet",
   "SingleNumberSignificanceTest_BinomialZ", "WindowedBayesianHotness_EWMA",
   "FeatureDistributionTest_MonteCarlo", "AntiCrowdNumberSelection_PopularityPenalty",
   "ChangePointDetection_NumberFrequencies",
   "WeightedSamplingWithoutReplacement_TicketGenerator"]

theorem genLoop_algorithms (eng : EngineState) (count : Nat) (maxSim : ℚ)
    (fillFuel : Nat) (budget : Nat) :
    ∀ (r : Rng) (recs : List Recommendation),
      (∀ x ∈ recs, x.algorithm = "BalancedHotColdMix") →
      ∀ out, (genLoop eng count maxSim fillFuel budget r recs).1 = some out →
        ∀ x ∈ out, x.algorithm = "BalancedHotColdMix" := by
  induction budget with
  | zero =>
    intro r recs h out hout
    simp only [genLoop] at hout
    injection hout with hout
    exact hout ▸ h
  | succ b ih =>
    intro r recs h out hout
    simp only [genLoop] at hout
    by_cases hc : count ≤ recs.length
    · simp only [hc, if_true] at hout
      injection hout with hout
      exact hout ▸ h
    · simp only [hc, if_false] at hout
      cases hcand : (buildCandidate eng fillFuel r).1 with
      | none => rw [hcand] at hout; cases hout
      | some ns =>
        rw [hcand] at hout
        simp only at hout
        refine ih _ (acceptCandidate eng maxSim recs ns) ?_ out hout
        intro x hx
        unfold acceptCandidate at hx
        split_ifs at hx <;>
          first
            | exact h x hx
            | exact (List.mem_append.mp hx).elim (fun hm => h x hm)
                (fun hm => by
                  rw [List.mem_singleton] at hm
                  rw [hm, buildRecommendation_algorithm])

/-- The shape of a batch that did not diverge: 8 fixed entries, optionally
preceded by one BalancedHotColdMix entry. -/
def batchShapeOk (o : Option (List Recommendation)) : Prop :=
  ∀ out, o = some out →
    (out.map Recommendation.algorithm = fixedAlgorithms ∧ out.length = 8)
    ∨ (out.map Recommendation.algorithm = "BalancedHotColdMix" :: fixedAlgorithms
        ∧ out.length = 9)

/-- C1 amended: for every non-empty draw history the batch consists of the 8
fixed strategies in the stated order, preceded by one BalancedHotColdMix
entry exactly when the capped rejection sampler accepted a candidate — 8 or 9
entries, not always 9. -/
theorem buildRecommendations_eight_or_nine (env : Env) (fillFuel : Nat)
    (draws : List DrawRec) (seed : Option String) (lang : String)
    (hne : draws ≠ []) :
    batchShapeOk (buildRecommendations env fillFuel draws seed lang) := by
  intro out hout
  simp only [buildRecommendations] at hout
  rw [if_neg (by simp [List.isEmpty_iff, hne])] at hout
  split at hout
  · cases hout
  · rename_i balanced hbal
    injection hout with hout
    subst hout
    cases balanced with
    | nil =>
      refine Or.inl ⟨?_, ?_⟩
      · simp [fixedAlgorithms, buildRecommendation_algorithm]
      · simp
    | cons b rest =>
      have halg : b.algorithm = "BalancedHotColdMix" := by
        simp only [engineGenerateFull] at hbal
        exact genLoop_algorithms _ 1 (2/5) fillFuel (1 * 300) _ [] (by simp) _ hbal b
          (by simp)
      refine Or.inr ⟨?_, ?_⟩
      · simp [fixedAlgorithms, buildRecommendation_algorithm, halg]
      · simp

/-- Witness for C1 (amended) at a concrete input. -/
theorem buildRecommendations_eight_or_nine_witness :
    oneDraw ≠ [] ∧ batchShapeOk (buildRecommendations cexEnv 37 oneDraw (some "s") "zh") :=
  ⟨by simp [oneDraw], buildRecommendations_eight_or_nine cexEnv 37 oneDraw (some "s") "zh"
    (by simp [oneDraw])⟩

/-- When the balanced sampler returns the empty list, the batch is exactly
the 8 fixed entries (stated on the lengths). -/
theorem buildRecommendations_len_of_empty_balanced (env : Env) (fillFuel : Nat)
    (draws : List DrawRec) (seed : Option String) (hne : draws.isEmpty = false)
    (hgen : (engineGenerateFull (mkEngine draws "zh") 1 (2/5) fillFuel
        (pyRandomOfSeed env seed)).1 = some []) :
    (buildRecommendations env fillFuel draws seed "zh").map List.length = some 8 := by
  have h2 : (if ("zh" : String) = "en" then "en" else "zh") = "zh" := by decide
  simp only [buildRecommendations]
  rw [if_neg (by simp [hne])]
  rw [h2, hgen]
  simp

/-- When the balanced sampler returns the empty list, the batch head is the
PureFrequencyTop7 entry, whose numbers are the raw frequency ranking. -/
theorem buildRecommendations_head_of_empty_balanced (env : Env) (fillFuel : Nat)
    (draws : List DrawRec) (seed : Option String) (hne : draws.isEmpty = false)
    (hgen : (engineGenerateFull (mkEngine draws "zh") 1 (2/5) fillFuel
        (pyRandomOfSeed env seed)).1 = some []) :
    ((buildRecommendations env fillFuel draws seed "zh").map
        (fun out => (out.map (fun r => (r.algorithm, r.numbers))).getD 0 ("", [])))
      = some ("PureFrequencyTop7", topNumbersOf (mkEngine draws "zh").mainCounts 7) := by
  have h2 : (if ("zh" : String) = "en" then "en" else "zh") = "zh" := by decide
  simp only [buildRecommendations]
  rw [if_neg (by simp [hne])]
  rw [h2, hgen]
  simp [buildRecommendation_algorithm, buildRecommendation_numbers]

/-- C1 counterexample: with the single draw 1..7 the historical sum band is
(28, 28), yet under the constant-7 streams every balanced-mix candidate is
[1, 2, 3, 4, 5, 15, 16] (sum 46), so all 300 attempts are rejected and the
batch has 8 entries, not 9. -/
theorem buildRecommendations_batch_of_eight :
    (buildRecommendations cexEnv 37 oneDraw (some "s") "zh").map List.length = some 8
    ∧ (buildRecommendations cexEnv 37 oneDraw (some "s") "zh").map List.length
        ≠ some 9 := by
  have hgen : (engineGenerateFull (mkEngine oneDraw (if ("zh" : String) = "en" then "en" else "zh"))
      1 (2/5) 37 (pyRandomOfSeed cexEnv (some "s"))).1 = some [] := by
    have h1 : pyRandomOfSeed cexEnv (some "s") = (⟨fun _ => 7, 0⟩ : Rng) := rfl
    have h2 : (if ("zh" : String) = "en" then "en" else "zh") = "zh" := by decide
    rw [h1, h2, engOneLit_eq]
    simp only [engineGenerateFull]
    exact genLoop_engOne_const 1 37 (2/5) (1 * 300) 0 []
  have hmain := buildRecommendations_len_of_empty_balanced cexEnv 37 oneDraw (some "s")
    (by decide)
    (by rw [show (if ("zh" : String) = "en" then "en" else "zh") = "zh" from by decide] at hgen
        exact hgen)
  exact ⟨hmain, by rw [hmain]; simp⟩

/-! ## Claim C3: counterexample -/

/-- C3 counterexample: on a two-draw history where 7 is the most frequent
number, the PureFrequencyTop7 recommendation (the batch head here, since the
balanced sampler rejects everything) carries its numbers in frequency order
[7, 1, 2, 3, 4, 5, 6] — not sorted ascending. -/
theorem pure_frequency_not_sorted :
    ((buildRecommendations cexEnv 37 twoDraws (some "s") "zh").map
        (fun out => (out.map (fun r => (r.algorithm, r.numbers))).getD 0 ("", [])))
      = some ("PureFrequencyTop7", [7, 1, 2, 3, 4, 5, 6])
    ∧ ¬ List.Sorted (· ≤ ·) [7, 1, 2, 3, 4, 5, 6] := by
  have hgen : (engineGenerateFull (mkEngine twoDraws (if ("zh" : String) = "en" then "en" else "zh"))
      1 (2/5) 37 (pyRandomOfSeed cexEnv (some "s"))).1 = some [] := by
    have h1 : pyRandomOfSeed cexEnv (some "s") = (⟨fun _ => 7, 0⟩ : Rng) := rfl
    have h2 : (if ("zh" : String) = "en" then "en" else "zh") = "zh" := by decide
    rw [h1, h2, engTwoLit_eq]
    simp only [engineGenerateFull]
    exact genLoop_engTwo_const 1 37 (2/5) (1 * 300) 0 []
  constructor
  · have hmain := buildRecommendations_head_of_empty_balanced cexEnv 37 twoDraws (some "s")
      (by decide)
      (by rw [show (if ("zh" : String) = "en" then "en" else "zh") = "zh" from by decide] at hgen
          exact hgen)
    rw [hmain]
    have : topNumbersOf (mkEngine twoDraws "zh").mainCounts 7 = [7, 1, 2, 3, 4, 5, 6] := by
      decide
    rw [this]
  · decide

/-! ## Claim C3: shape of every recommended ticket -/

/-- A well-formed ticket: 7 distinct ascending numbers drawn from 1..50. -/
def ticketOk (t : List Nat) : Prop :=
  t.length = 7 ∧ t.Nodup ∧ List.Sorted (· ≤ ·) t ∧ ∀ y ∈ t, 1 ≤ y ∧ y ≤ 50

/-- A well-formed draw history: every draw has 7 distinct main numbers in
1..50 (what the loader guarantees for real data). -/
def ValidDraws (draws : List DrawRec) : Prop :=
  ∀ d ∈ draws, d.numbers.Nodup ∧ d.numbers.length = 7 ∧ ∀ n ∈ d.numbers, 1 ≤ n ∧ n ≤ 50

theorem sortedNat_length (l : List Nat) : (sortedNat l).length = l.length :=
  (sortedNat_perm l).length_eq

theorem sortedNat_nodup {l : List Nat} (h : l.Nodup) : (sortedNat l).Nodup :=
  (sortedNat_perm l).nodup_iff.mpr h

theorem mem_sortedNat {y : Nat} {l : List Nat} : y ∈ sortedNat l ↔ y ∈ l :=
  (sortedNat_perm l).mem_iff

theorem ticketOk_sortedNat {t : List Nat} (hlen : t.length = 7) (hnd : t.Nodup)
    (hmem : ∀ y ∈ t, 1 ≤ y ∧ y ≤ 50) : ticketOk (sortedNat t) :=
  ⟨(sortedNat_length t).trans hlen, sortedNat_nodup hnd, sortedNat_sorted t,
   fun y hy => hmem y (mem_sortedNat.mp hy)⟩

theorem rngChoice_mem [Inhabited α] {l : List α} (hl : l ≠ []) (r : Rng) :
    (rngChoice r l).1 ∈ l := by
  have hlen : 0 < l.length := List.length_pos.mpr hl
  simp only [rngChoice, Rng.next]
  rw [List.getD_eq_getElem?_getD]
  have h : r.fn r.pos % l.length < l.length := Nat.mod_lt _ hlen
  rw [List.getElem?_eq_getElem h]
  exact List.getElem_mem _

theorem mem_pyInsert {l : List Nat} {x y : Nat} :
    y ∈ pyInsert l x ↔ y ∈ l ∨ y = x := by
  by_cases h : x ∈ l
  · simp only [pyInsert, if_pos h]
    exact ⟨Or.inl, fun h' => h'.elim id (fun e => e ▸ h)⟩
  · simp [pyInsert, if_neg h]

theorem pyInsert_nodup {l : List Nat} (h : l.Nodup) (x : Nat) :
    (pyInsert l x).Nodup := by
  by_cases hx : x ∈ l
  · simpa [pyInsert, if_pos hx] using h
  · simp only [pyInsert, if_neg hx]
    simp [List.nodup_append, h, hx]

theorem pyInsert_length_le (l : List Nat) (x : Nat) :
    (pyInsert l x).length ≤ l.length + 1 := by
  by_cases hx : x ∈ l <;> simp [pyInsert, hx]

theorem foldl_pyInsert_nodup (xs : List Nat) :
    ∀ init : List Nat, init.Nodup → (xs.foldl pyInsert init).Nodup := by
  induction xs with
  | nil => intro init h; simpa
  | cons a as ih =>
    intro init h
    simp only [List.foldl_cons]
    exact ih _ (pyInsert_nodup h a)

theorem mem_foldl_pyInsert (xs : List Nat) :
    ∀ (init : List Nat) (y : Nat), y ∈ xs.foldl pyInsert init → y ∈ init ∨ y ∈ xs := by
  induction xs with
  | nil => intro init y h; exact Or.inl (by simpa using h)
  | cons a as ih =>
    intro init y h
    simp only [List.foldl_cons] at h
    rcases ih _ y h with h' | h'
    · rcases mem_pyInsert.mp h' with h'' | h''
      · exact Or.inl h''
      · exact Or.inr (by simp [h''])
    · exact Or.inr (by simp [h'])

theorem foldl_pyInsert_length (xs : List Nat) :
    ∀ init : List Nat, (xs.foldl pyInsert init).length ≤ init.length + xs.length := by
  induction xs with
  | nil => intro init; simp
  | cons a as ih =>
    intro init
    simp only [List.foldl_cons, List.length_cons]
    have h1 := ih (pyInsert init a)
    have h2 := pyInsert_length_le init a
    omega

theorem hotSelOf_sub (eng : EngineState) (r : Rng) :
    ∀ y ∈ (hotSelOf eng r).1, y ∈ eng.hotNumbers := by
  intro y hy
  unfold hotSelOf at hy
  split at hy
  · exact rngSample_mem _ _ _ y hy
  · simp at hy

theorem hotSelOf_len (eng : EngineState) (r : Rng) : (hotSelOf eng r).1.length ≤ 3 := by
  unfold hotSelOf
  split
  · exact le_trans (rngSample_length_le _ _ _) (min_le_left _ _)
  · simp

theorem coldSelOf_sub (eng : EngineState) (sel1 : List Nat) (r : Rng) :
    ∀ y ∈ (coldSelOf eng sel1 r).1, y ∈ eng.coldNumbers := by
  intro y hy
  simp only [coldSelOf] at hy
  split at hy
  · exact (List.mem_filter.mp (rngSample_mem _ _ _ y hy)).1
  · simp at hy

theorem coldSelOf_len (eng : EngineState) (sel1 : List Nat) (r : Rng) :
    (coldSelOf eng sel1 r).1.length ≤ 2 := by
  simp only [coldSelOf]
  split
  · exact le_trans (rngSample_length_le _ _ _) (min_le_left _ _)
  · simp

theorem pairSelOf_sub (eng : EngineState) (sel2 : List Nat) (r : Rng) :
    ∀ y ∈ (pairSelOf eng sel2 r).1,
      y ∈ sel2 ∨ ∃ p ∈ eng.commonPairs, y = p.1 ∨ y = p.2 := by
  intro y hy
  simp only [pairSelOf] at hy
  split at hy
  · exact Or.inl hy
  · rename_i hne
    have hpairs : eng.commonPairs ≠ [] := by
      simpa [List.isEmpty_iff] using hne
    have hpick : (rngChoice r eng.commonPairs).1 ∈ eng.commonPairs :=
      rngChoice_mem hpairs r
    rcases mem_pyInsert.mp hy with hy' | hy'
    · rcases mem_pyInsert.mp hy' with hy'' | hy''
      · exact Or.inl hy''
      · exact Or.inr ⟨_, hpick, Or.inl hy''⟩
    · exact Or.inr ⟨_, hpick, Or.inr hy'⟩

theorem pairSelOf_len (eng : EngineState) (sel2 : List Nat) (r : Rng) :
    (pairSelOf eng sel2 r).1.length ≤ sel2.length + 2 := by
  simp only [pairSelOf]
  split
  · simp
  · dsimp only
    have h1 := pyInsert_length_le sel2 (rngChoice r eng.commonPairs).1.1
    have h2 := pyInsert_length_le (pyInsert sel2 (rngChoice r eng.commonPairs).1.1)
      (rngChoice r eng.commonPairs).1.2
    omega

theorem pairSelOf_nodup (eng : EngineState) {sel2 : List Nat} (h : sel2.Nodup) (r : Rng) :
    (pairSelOf eng sel2 r).1.Nodup := by
  simp only [pairSelOf]
  split
  · exact h
  · exact pyInsert_nodup (pyInsert_nodup h _) _

theorem candidateSel_spec (eng : EngineState) (r : Rng) :
    (candidateSel eng r).1.Nodup ∧ (candidateSel eng r).1.length ≤ 7 ∧
      ∀ y ∈ (candidateSel eng r).1,
        y ∈ eng.hotNumbers ∨ y ∈ eng.coldNumbers
          ∨ ∃ p ∈ eng.commonPairs, y = p.1 ∨ y = p.2 := by
  simp only [candidateSel]
  set hr := hotSelOf eng r with hhr
  set s1 : List Nat := hr.1.foldl pyInsert [] with hs1
  set cr := coldSelOf eng s1 hr.2 with hcr
  set s2 : List Nat := cr.1.foldl pyInsert s1 with hs2
  have hs1nd : s1.Nodup := foldl_pyInsert_nodup _ _ List.nodup_nil
  have hs1len : s1.length ≤ 3 := by
    have h1 := foldl_pyInsert_length hr.1 []
    have h2 := hotSelOf_len eng r
    rw [← hhr] at h2
    rw [← hs1] at h1
    simp only [List.length_nil] at h1
    omega
  have hs1sub : ∀ y ∈ s1, y ∈ eng.hotNumbers := by
    intro y hy
    rcases mem_foldl_pyInsert _ _ _ hy with h | h
    · simp at h
    · rw [hhr] at h
      exact hotSelOf_sub eng r y h
  have hs2nd : s2.Nodup := foldl_pyInsert_nodup _ _ hs1nd
  have hs2len : s2.length ≤ 5 := by
    have h1 := foldl_pyInsert_length cr.1 s1
    have h2 := coldSelOf_len eng s1 hr.2
    rw [← hcr] at h2
    rw [← hs2] at h1
    omega
  have hs2sub : ∀ y ∈ s2, y ∈ eng.hotNumbers ∨ y ∈ eng.coldNumbers := by
    intro y hy
    rcases mem_foldl_pyInsert _ _ _ hy with h | h
    · exact Or.inl (hs1sub y h)
    · rw [hcr] at h
      exact Or.inr (coldSelOf_sub eng s1 hr.2 y h)
  refine ⟨pairSelOf_nodup eng hs2nd _, ?_, ?_⟩
  · have h1 := pairSelOf_len eng s2 cr.2
    omega
  · intro y hy
    rcases pairSelOf_sub eng s2 cr.2 y hy with h | h
    · rcases hs2sub y h with h' | h'
      · exact Or.inl h'
      · exact Or.inr (Or.inl h')
    · exact Or.inr (Or.inr h)

theorem fillSelection_spec (pool : List Nat) (hpool : pool ≠ []) (fuel : Nat) :
    ∀ (r : Rng) (sel : List Nat), sel.Nodup → sel.length ≤ 7 →
      ∀ s, (fillSelection pool fuel r sel).1 = some s →
        s.length = 7 ∧ s.Nodup ∧ ∀ y ∈ s, y ∈ sel ∨ y ∈ pool := by
  induction fuel with
  | zero =>
    intro r sel hnd hlen s hs
    simp only [fillSelection] at hs
    split at hs
    · simp at hs
    · rename_i h7
      have heq : sel = s := by simpa using hs
      subst heq
      exact ⟨by omega, hnd, fun y hy => Or.inl hy⟩
  | succ fuel ih =>
    intro r sel hnd hlen s hs
    simp only [fillSelection] at hs
    split at hs
    · rename_i h7
      have hpick : (rngChoice r pool).1 ∈ pool := rngChoice_mem hpool r
      have h1 := ih (rngChoice r pool).2 (pyInsert sel (rngChoice r pool).1)
        (pyInsert_nodup hnd _)
        (le_trans (pyInsert_length_le _ _) (by omega)) s hs
      refine ⟨h1.1, h1.2.1, ?_⟩
      intro y hy
      rcases h1.2.2 y hy with h' | h'
      · rcases mem_pyInsert.mp h' with h'' | h''
        · exact Or.inl h''
        · exact Or.inr (h'' ▸ hpick)
      · exact Or.inr h'
    · rename_i h7
      have heq : sel = s := by simpa using hs
      subst heq
      exact ⟨by omega, hnd, fun y hy => Or.inl hy⟩

theorem mainCounts_keys_mem (draws : List DrawRec) :
    ∀ (c : List (Nat × Nat)) (k : Nat),
      k ∈ (draws.foldl (fun c d => counterUpdate c d.numbers) c).map Prod.fst →
      k ∈ c.map Prod.fst ∨ ∃ d ∈ draws, k ∈ d.numbers := by
  induction draws with
  | nil => intro c k h; exact Or.inl (by simpa using h)
  | cons d rest ih =>
    intro c k h
    simp only [List.foldl_cons] at h
    rcases ih _ k h with h' | h'
    · rcases counterUpdate_keys_sub _ _ _ h' with h'' | h''
      · exact Or.inl h''
      · exact Or.inr ⟨d, by simp, h''⟩
    · obtain ⟨d', hd', hk⟩ := h'
      exact Or.inr ⟨d', by simp [hd'], hk⟩

theorem mkEngine_hotNumbers (draws : List DrawRec) (lang : String) :
    (mkEngine draws lang).hotNumbers =
      (if ((counterMostCommon (draws.foldl (fun c d => counterUpdate c d.numbers) []) 10).map
            Prod.fst).isEmpty
       then List.range' 1 10
       else (counterMostCommon (draws.foldl (fun c d => counterUpdate c d.numbers) []) 10).map
            Prod.fst) := rfl

theorem mkEngine_hot_range (draws : List DrawRec) (lang : String)
    (hv : ValidDraws draws) :
    ∀ y ∈ (mkEngine draws lang).hotNumbers, 1 ≤ y ∧ y ≤ 50 := by
  intro y hy
  rw [mkEngine_hotNumbers] at hy
  split at hy
  · have := List.mem_range'_1.mp hy
    omega
  · have h1 := counterMostCommon_keys_sub _ 10 y hy
    rcases mainCounts_keys_mem draws [] y h1 with h | h
    · simp at h
    · obtain ⟨d, hd, hk⟩ := h
      exact (hv d hd).2.2 y hk

theorem computeOmissions_keys (draws : List DrawRec) :
    (computeOmissions draws).map Prod.fst = List.range' 1 50 := by
  simp only [computeOmissions, List.map_map]
  have hcomp : (Prod.fst ∘ fun num : Nat =>
      (num, (omissionState draws 0 (fun _ => none) num).getD draws.length))
        = fun num : Nat => num := rfl
  rw [hcomp]
  simp

theorem mkEngine_coldNumbers (draws : List DrawRec) (lang : String) :
    (mkEngine draws lang).coldNumbers =
      (if (((stableSortBy (fun a b : Nat × Nat => decide (b.2 < a.2))
              (computeOmissions draws)).take 10).map Prod.fst).isEmpty
       then List.range' 41 10
       else ((stableSortBy (fun a b : Nat × Nat => decide (b.2 < a.2))
              (computeOmissions draws)).take 10).map Prod.fst) := by
  simp only [mkEngine]

theorem mkEngine_cold_range (draws : List DrawRec) (lang : String) :
    ∀ y ∈ (mkEngine draws lang).coldNumbers, 1 ≤ y ∧ y ≤ 50 := by
  intro y hy
  rw [mkEngine_coldNumbers] at hy
  split at hy
  · have := List.mem_range'_1.mp hy
    omega
  · simp only [List.map_take] at hy
    have h1 := List.mem_of_mem_take hy
    have h2 := (stableSortBy_perm (fun a b : Nat × Nat => decide (b.2 < a.2))
      (computeOmissions draws)).map Prod.fst
    have h3 : y ∈ (computeOmissions draws).map Prod.fst := h2.mem_iff.mp h1
    rw [computeOmissions_keys] at h3
    have := List.mem_range'_1.mp h3
    omega

theorem allPairs_mem (l : List Nat) :
    ∀ p ∈ allPairs l, p.1 ∈ l ∧ p.2 ∈ l := by
  induction l with
  | nil => intro p hp; simp [allPairs] at hp
  | cons x xs ih =>
    intro p hp
    simp only [allPairs, List.mem_append] at hp
    rcases hp with hp | hp
    · obtain ⟨y, hy, rfl⟩ := List.mem_map.mp hp
      exact ⟨by simp, by simp [hy]⟩
    · have := ih p hp
      exact ⟨by simp [this.1], by simp [this.2]⟩

theorem pairCounts_keys_mem (draws : List DrawRec) :
    ∀ (c : List ((Nat × Nat) × Nat)) (k : Nat × Nat),
      k ∈ (draws.foldl
          (fun c d => counterUpdate c (allPairs (sortedNat d.numbers))) c).map Prod.fst →
      k ∈ c.map Prod.fst ∨ ∃ d ∈ draws, k ∈ allPairs (sortedNat d.numbers) := by
  induction draws with
  | nil => intro c k h; exact Or.inl (by simpa using h)
  | cons d rest ih =>
    intro c k h
    simp only [List.foldl_cons] at h
    rcases ih _ k h with h' | h'
    · rcases counterUpdate_keys_sub _ _ _ h' with h'' | h''
      · exact Or.inl h''
      · exact Or.inr ⟨d, by simp, h''⟩
    · obtain ⟨d', hd', hk⟩ := h'
      exact Or.inr ⟨d', by simp [hd'], hk⟩

theorem mkEngine_commonPairs (draws : List DrawRec) (lang : String) :
    (mkEngine draws lang).commonPairs = topPairs draws 15 := rfl

theorem mkEngine_pairs_range (draws : List DrawRec) (lang : String)
    (hv : ValidDraws draws) :
    ∀ p ∈ (mkEngine draws lang).commonPairs,
      (1 ≤ p.1 ∧ p.1 ≤ 50) ∧ (1 ≤ p.2 ∧ p.2 ≤ 50) := by
  intro p hp
  rw [mkEngine_commonPairs] at hp
  simp only [topPairs] at hp
  have h1 := counterMostCommon_keys_sub _ 15 p hp
  rcases pairCounts_keys_mem draws [] p h1 with h | h
  · simp at h
  · obtain ⟨d, hd, hk⟩ := h
    have hm := allPairs_mem _ p hk
    have hr := (hv d hd).2.2
    exact ⟨hr p.1 (mem_sortedNat.mp hm.1), hr p.2 (mem_sortedNat.mp hm.2)⟩

theorem buildCandidate_shape (eng : EngineState)
    (hhot : ∀ y ∈ eng.hotNumbers, 1 ≤ y ∧ y ≤ 50)
    (hcold : ∀ y ∈ eng.coldNumbers, 1 ≤ y ∧ y ≤ 50)
    (hpairs : ∀ p ∈ eng.commonPairs, (1 ≤ p.1 ∧ p.1 ≤ 50) ∧ (1 ≤ p.2 ∧ p.2 ≤ 50))
    (fuel : Nat) (r : Rng) (ns : List Nat)
    (hns : (buildCandidate eng fuel r).1 = some ns) : ticketOk ns := by
  simp only [buildCandidate] at hns
  set cs := candidateSel eng r with hcs
  obtain ⟨hnd, hlen, hsub⟩ := candidateSel_spec eng r
  rw [← hcs] at hnd hlen hsub
  have hselrange : ∀ y ∈ cs.1, 1 ≤ y ∧ y ≤ 50 := by
    intro y hy
    rcases hsub y hy with h | h | ⟨p, hp, h⟩
    · exact hhot y h
    · exact hcold y h
    · rcases h with h | h
      · exact h ▸ (hpairs p hp).1
      · exact h ▸ (hpairs p hp).2
  have hpool : (List.range' 1 50).filter (fun n => n ∉ cs.1) ≠ [] := by
    intro hp
    have hall : ∀ n ∈ List.range' 1 50, n ∈ cs.1 := by
      intro n hn
      by_contra hnot
      have hmem : n ∈ (List.range' 1 50).filter (fun n => n ∉ cs.1) := by
        simp [List.mem_filter, hn, hnot]
      rw [hp] at hmem
      simp at hmem
    have hsubr : List.range' 1 50 ⊆ cs.1 := hall
    have hle := (List.subperm_of_subset (List.nodup_range' 1 50 1) hsubr).length_le
    simp at hle
    omega
  have hpoolrange : ∀ y ∈ (List.range' 1 50).filter (fun n => n ∉ cs.1),
      1 ≤ y ∧ y ≤ 50 := by
    intro y hy
    have h1 := (List.mem_filter.mp hy).1
    have := List.mem_range'_1.mp h1
    omega
  obtain ⟨s, hsome, hmap⟩ := Option.map_eq_some'.mp hns
  obtain ⟨hslen, hsnd, hsmem⟩ :=
    fillSelection_spec _ hpool fuel cs.2 cs.1 hnd hlen s hsome
  subst hmap
  refine ticketOk_sortedNat hslen hsnd ?_
  intro y hy
  rcases hsmem y hy with h | h
  · exact hselrange y h
  · exact hpoolrange y h

theorem map_fst_pairs {β : Type} (f : Nat → β) (l : List Nat) :
    (l.map (fun i => (i, f i))).map Prod.fst = l := by
  have hcomp : (Prod.fst ∘ fun i : Nat => (i, f i)) = fun i : Nat => i := rfl
  rw [List.map_map, hcomp]
  simp

theorem dirichlet_keys (ds : List (List Nat)) (a : ℚ) :
    (dirichletProbabilities ds a).map Prod.fst = List.range' 1 50 := by
  simp only [dirichletProbabilities]
  exact map_fst_pairs _ _

theorem dirichlet_length (ds : List (List Nat)) (a : ℚ) :
    (dirichletProbabilities ds a).length = 50 := by
  have h := congrArg List.length (dirichlet_keys ds a)
  simpa using h

theorem dirichlet_pos (ds : List (List Nat)) :
    ∀ p ∈ dirichletProbabilities ds 1, 0 < p.2 := by
  intro p hp
  simp only [dirichletProbabilities, List.mem_map] at hp
  obtain ⟨i, hi, rfl⟩ := hp
  dsimp only
  have hden : (0 : ℚ) < ((ds.length * 7 : Nat) : ℚ) + 50 * 1 := by positivity
  have hnum : (0 : ℚ) < (counterGet (ds.foldl counterUpdate []) i : ℚ) + 1 := by positivity
  exact div_pos hnum hden

theorem binomialZ_keys (fops : FloatOps) (ds : List (List Nat)) :
    (binomialZScores fops ds).map Prod.fst = List.range' 1 50 := by
  simp only [binomialZScores]
  exact map_fst_pairs _ _

theorem binomialZ_length (fops : FloatOps) (ds : List (List Nat)) :
    (binomialZScores fops ds).length = 50 := by
  have h := congrArg List.length (binomialZ_keys fops ds)
  simpa using h

theorem ewmaStep_keys (window : Nat) (alpha decay : ℚ)
    (st : List (Nat × ℚ) × List (Nat × Nat) × List (List Nat)) (draw : List Nat) :
    ((ewmaStep window alpha decay st draw).1).map Prod.fst = st.1.map Prod.fst := by
  simp only [ewmaStep]
  rw [List.map_map]
  rfl

theorem foldl_ewmaStep_keys (window : Nat) (alpha decay : ℚ) (ds : List (List Nat)) :
    ∀ st : List (Nat × ℚ) × List (Nat × Nat) × List (List Nat),
      ((ds.foldl (ewmaStep window alpha decay) st).1).map Prod.fst = st.1.map Prod.fst := by
  induction ds with
  | nil => intro st; rfl
  | cons d rest ih =>
    intro st
    simp only [List.foldl_cons]
    rw [ih, ewmaStep_keys]

theorem ewmaScores_keys (ds : List (List Nat)) (window : Nat) (alpha decay : ℚ) :
    (ewmaScores ds window alpha decay).map Prod.fst = List.range' 1 50 := by
  simp only [ewmaScores]
  rw [foldl_ewmaStep_keys]
  exact map_fst_pairs _ _

theorem ewmaScores_length (ds : List (List Nat)) (window : Nat) (alpha decay : ℚ) :
    (ewmaScores ds window alpha decay).length = 50 := by
  have h := congrArg List.length (ewmaScores_keys ds window alpha decay)
  simpa using h

theorem ewma_blend_pos (v c denom : ℚ) (hv : 0 < v) (hc : 0 < c) (hden : 0 < denom) :
    0 < (1 - 1/5) * v + (1/5) * (c / denom) := by
  have h1 := mul_pos (show (0:ℚ) < 1 - 1/5 by norm_num) hv
  have h2 := mul_pos (show (0:ℚ) < (1:ℚ)/5 by norm_num) (div_pos hc hden)
  linarith

theorem ewmaStep_pos (window : Nat)
    (st : List (Nat × ℚ) × List (Nat × Nat) × List (List Nat)) (draw : List Nat)
    (hst : ∀ p ∈ st.1, 0 < p.2) :
    ∀ p ∈ (ewmaStep window 1 (1/5) st draw).1, 0 < p.2 := by
  intro p hp
  simp only [ewmaStep, List.mem_map] at hp
  obtain ⟨q, hq, rfl⟩ := hp
  dsimp only
  exact ewma_blend_pos _ _ _ (hst q hq) (by positivity) (by positivity)

theorem foldl_ewmaStep_pos (window : Nat) (ds : List (List Nat)) :
    ∀ st : List (Nat × ℚ) × List (Nat × Nat) × List (List Nat),
      (∀ p ∈ st.1, 0 < p.2) →
      ∀ p ∈ ((ds.foldl (ewmaStep window 1 (1/5)) st).1), 0 < p.2 := by
  induction ds with
  | nil => intro st hst; simpa using hst
  | cons d rest ih =>
    intro st hst
    simp only [List.foldl_cons]
    exact ih _ (ewmaStep_pos window st d hst)

theorem ewmaScores_pos (ds : List (List Nat)) (window : Nat) :
    ∀ p ∈ ewmaScores ds window 1 (1/5), 0 < p.2 := by
  simp only [ewmaScores]
  refine foldl_ewmaStep_pos window ds _ ?_
  intro p hp
  simp only [List.mem_map] at hp
  obtain ⟨i, hi, rfl⟩ := hp
  norm_num

theorem wswr_built_snd (fops : FloatOps) (ws : List (Nat × ℚ)) :
    ∀ (acc : List (ℚ × Nat)) (r : Rng), (∀ p ∈ ws, 0 < p.2) →
      ((ws.foldl (wswrStep fops) (acc, r)).1).map Prod.snd
        = acc.map Prod.snd ++ ws.map Prod.fst := by
  induction ws with
  | nil => intro acc r h; simp
  | cons w rest ih =>
    intro acc r h
    simp only [List.foldl_cons]
    have hw : ¬ w.2 ≤ 0 := not_le.mpr (h w (by simp))
    have hstep : wswrStep fops (acc, r) w
        = (acc ++ [(fops.fpow (rngFloat r).1 (1 / w.2), w.1)], (rngFloat r).2) := by
      simp [wswrStep, hw]
    rw [hstep, ih _ _ (fun p hp => h p (List.mem_cons_of_mem _ hp))]
    simp

theorem weightedSample_shape (fops : FloatOps) (ws : List (Nat × ℚ)) (k : Nat) (r : Rng)
    (hpos : ∀ p ∈ ws, 0 < p.2) (hkeys : (ws.map Prod.fst).Nodup) :
    (weightedSampleWithoutReplacement fops ws k r).1.length = min k ws.length
    ∧ (weightedSampleWithoutReplacement fops ws k r).1.Nodup
    ∧ List.Sorted (· ≤ ·) (weightedSampleWithoutReplacement fops ws k r).1
    ∧ ∀ y ∈ (weightedSampleWithoutReplacement fops ws k r).1, y ∈ ws.map Prod.fst := by
  simp only [weightedSampleWithoutReplacement]
  have hB := wswr_built_snd fops ws [] r hpos
  simp only [List.map_nil, List.nil_append] at hB
  set BT := (ws.foldl (wswrStep fops) (([] : List (ℚ × Nat)), r)).1 with hBT
  have hperm : List.Perm (stableSortBy tupleGtQN BT) BT := stableSortBy_perm _ _
  have hpermsnd : List.Perm ((stableSortBy tupleGtQN BT).map Prod.snd) (BT.map Prod.snd) :=
    hperm.map _
  have hndsnd : ((stableSortBy tupleGtQN BT).map Prod.snd).Nodup :=
    hpermsnd.nodup_iff.mpr (by rw [hB]; exact hkeys)
  have hlenB : (stableSortBy tupleGtQN BT).length = ws.length := by
    rw [stableSortBy_length]
    have h := congrArg List.length hB
    simpa using h
  refine ⟨?_, ?_, sortedNat_sorted _, ?_⟩
  · rw [sortedNat_length, List.length_map, List.length_take, hlenB]
  · apply sortedNat_nodup
    rw [List.map_take]
    exact List.Nodup.sublist (List.take_sublist _ _) hndsnd
  · intro y hy
    rw [mem_sortedNat, List.map_take] at hy
    have h1 := List.mem_of_mem_take hy
    have h2 := hpermsnd.mem_iff.mp h1
    rw [hB] at h2
    exact h2

theorem topKByValueDesc_shape (d : List (Nat × ℚ)) (k : Nat)
    (hkeys : (d.map Prod.fst).Nodup) :
    (topKByValueDesc d k).length = min k d.length
    ∧ (topKByValueDesc d k).Nodup
    ∧ ∀ y ∈ topKByValueDesc d k, y ∈ d.map Prod.fst := by
  simp only [topKByValueDesc]
  have hperm := stableSortBy_perm (fun a b : Nat × ℚ => decide (b.2 < a.2)) d
  have hpermfst := hperm.map Prod.fst
  have hnd : ((stableSortBy (fun a b : Nat × ℚ => decide (b.2 < a.2)) d).map
      Prod.fst).Nodup := hpermfst.nodup_iff.mpr hkeys
  refine ⟨?_, ?_, ?_⟩
  · rw [List.length_map, List.length_take, stableSortBy_length]
  · rw [List.map_take]
    exact List.Nodup.sublist (List.take_sublist _ _) hnd
  · intro y hy
    rw [List.map_take] at hy
    exact hpermfst.mem_iff.mp (List.mem_of_mem_take hy)

theorem sortedSampleTicket_ok (r : Rng) : ticketOk (sortedSampleTicket r).1 := by
  simp only [sortedSampleTicket]
  refine ticketOk_sortedNat ?_ ?_ ?_
  · exact rngSample_length r (List.range' 1 50) 7 (by simp)
  · exact rngSample_nodup r (List.range' 1 50) 7 (List.nodup_range' 1 50 1)
  · intro y hy
    have h1 := rngSample_mem r (List.range' 1 50) 7 y hy
    have h2 := List.mem_range'_1.mp h1
    omega

theorem bestTicketLoop_shape (score : List Nat → ℚ) (n : Nat) :
    ∀ (r : Rng) (best : Option (List Nat × ℚ)),
      (∀ t q, best = some (t, q) → ticketOk t) →
      ∀ t q, (bestTicketLoop score n r best).1 = some (t, q) → ticketOk t := by
  induction n with
  | zero =>
    intro r best hbest t q h
    simp only [bestTicketLoop] at h
    exact hbest t q h
  | succ n ih =>
    intro r best hbest t q h
    simp only [bestTicketLoop] at h
    refine ih _ _ ?_ t q h
    intro t' q' hb
    cases best with
    | none =>
      simp only at hb
      injection hb with hb
      have heq : (sortedSampleTicket r).1 = t' := congrArg Prod.fst hb
      exact heq ▸ sortedSampleTicket_ok r
    | some b =>
      simp only at hb
      split at hb
      · injection hb with hb
        have heq : (sortedSampleTicket r).1 = t' := congrArg Prod.fst hb
        exact heq ▸ sortedSampleTicket_ok r
      · injection hb with hb
        exact hbest t' q' (by rw [hb])

theorem bestOrFallback_ok (res : Option (List Nat × ℚ) × Rng)
    (hres : ∀ t q, res.1 = some (t, q) → ticketOk t) :
    ticketOk (bestOrFallback res).1 := by
  simp only [bestOrFallback]
  split
  · rename_i b heq
    exact hres b.1 b.2 (by rw [heq])
  · exact sortedSampleTicket_ok _

theorem featureDistributionTicket_ok (fops : FloatOps) (ds : List (List Nat)) (r : Rng) :
    ticketOk (featureDistributionTicket fops ds r).1 := by
  simp only [featureDistributionTicket]
  exact bestOrFallback_ok _
    (bestTicketLoop_shape _ 3000 r none (fun t q h => Option.noConfusion h))

theorem antiCrowdTicket_ok (r : Rng) : ticketOk (antiCrowdTicket r).1 := by
  simp only [antiCrowdTicket]
  exact bestOrFallback_ok _
    (bestTicketLoop_shape _ 3000 r none (fun t q h => Option.noConfusion h))

theorem changePoint_keys (fops : FloatOps) (ds : List (List Nat)) :
    (changePointSegmentProbabilities fops ds).map Prod.fst = List.range' 1 50 := by
  simp only [changePointSegmentProbabilities]
  split
  · exact map_fst_pairs _ _
  · exact dirichlet_keys _ 1

theorem changePoint_length (fops : FloatOps) (ds : List (List Nat)) :
    (changePointSegmentProbabilities fops ds).length = 50 := by
  have h := congrArg List.length (changePoint_keys fops ds)
  simpa using h

theorem mkEngine_mainCounts (draws : List DrawRec) (lang : String) :
    (mkEngine draws lang).mainCounts
      = draws.foldl (fun c d => counterUpdate c d.numbers) [] := rfl

theorem foldl_counterUpdate_keys_nodup (draws : List DrawRec) :
    ∀ c : List (Nat × Nat), (c.map Prod.fst).Nodup →
      ((draws.foldl (fun c d => counterUpdate c d.numbers) c).map Prod.fst).Nodup := by
  induction draws with
  | nil => intro c h; simpa
  | cons d rest ih =>
    intro c h
    simp only [List.foldl_cons]
    exact ih _ (counterUpdate_keys_nodup _ h)

theorem counterAdd_keys_mem [DecidableEq α] (c : List (α × Nat)) (x k : α)
    (h : k ∈ c.map Prod.fst ∨ k = x) : k ∈ (counterAdd c x).map Prod.fst := by
  rw [counterAdd_keys]
  by_cases hx : x ∈ c.map Prod.fst
  · rw [if_pos hx]
    rcases h with h | h
    · exact h
    · exact h ▸ hx
  · rw [if_neg hx]
    rcases h with h | h
    · exact List.mem_append.mpr (Or.inl h)
    · exact List.mem_append.mpr (Or.inr (by simp [h]))

theorem counterUpdate_keys_mem [DecidableEq α] (xs : List α) :
    ∀ (c : List (α × Nat)) (k : α), (k ∈ c.map Prod.fst ∨ k ∈ xs) →
      k ∈ (counterUpdate c xs).map Prod.fst := by
  induction xs with
  | nil =>
    intro c k h
    rcases h with h | h
    · simpa [counterUpdate] using h
    · simp at h
  | cons x xs ih =>
    intro c k h
    have hstep : k ∈ (counterAdd c x).map Prod.fst ∨ k ∈ xs := by
      rcases h with h | h
      · exact Or.inl (counterAdd_keys_mem c x k (Or.inl h))
      · rcases List.mem_cons.mp h with h' | h'
        · exact Or.inl (counterAdd_keys_mem c x k (Or.inr h'))
        · exact Or.inr h'
    have := ih (counterAdd c x) k hstep
    simpa [counterUpdate] using this

theorem foldl_counterUpdate_keys_mem (draws : List DrawRec) :
    ∀ (c : List (Nat × Nat)) (k : Nat),
      (k ∈ c.map Prod.fst ∨ ∃ d ∈ draws, k ∈ d.numbers) →
      k ∈ (draws.foldl (fun c d => counterUpdate c d.numbers) c).map Prod.fst := by
  induction draws with
  | nil =>
    intro c k h
    rcases h with h | ⟨d, hd, _⟩
    · simpa using h
    · simp at hd
  | cons d rest ih =>
    intro c k h
    simp only [List.foldl_cons]
    refine ih _ k ?_
    rcases h with h | ⟨d', hd', hk⟩
    · exact Or.inl (counterUpdate_keys_mem _ _ _ (Or.inl h))
    · rcases List.mem_cons.mp hd' with h' | h'
      · subst h'
        exact Or.inl (counterUpdate_keys_mem _ _ _ (Or.inr hk))
      · exact Or.inr ⟨d', h', hk⟩

theorem mainCounts_long (draws : List DrawRec) (hv : ValidDraws draws)
    (d : DrawRec) (hd : d ∈ draws) :
    7 ≤ (draws.foldl (fun c d => counterUpdate c d.numbers) []).length := by
  have hsub : d.numbers ⊆
      (draws.foldl (fun c d => counterUpdate c d.numbers) []).map Prod.fst := by
    intro k hk
    exact foldl_counterUpdate_keys_mem draws [] k (Or.inr ⟨d, hd, hk⟩)
  have hnd := (hv d hd).1
  have hlen := (hv d hd).2.1
  have h1 := (List.subperm_of_subset hnd hsub).length_le
  rw [List.length_map] at h1
  omega

theorem freqNumbers_shape (draws : List DrawRec) (lang : String)
    (hv : ValidDraws draws) (hne : draws ≠ []) :
    (topNumbersOf (mkEngine draws lang).mainCounts 7).length = 7
    ∧ (topNumbersOf (mkEngine draws lang).mainCounts 7).Nodup
    ∧ ∀ y ∈ topNumbersOf (mkEngine draws lang).mainCounts 7, 1 ≤ y ∧ y ≤ 50 := by
  obtain ⟨d, hd⟩ : ∃ d, d ∈ draws := by
    cases draws with
    | nil => exact absurd rfl hne
    | cons a as => exact ⟨a, by simp⟩
  rw [mkEngine_mainCounts]
  have hlong := mainCounts_long draws hv d hd
  have hkeysnd : ((draws.foldl (fun c d => counterUpdate c d.numbers) []).map
      Prod.fst).Nodup := foldl_counterUpdate_keys_nodup draws [] (by simp)
  refine ⟨?_, ?_, ?_⟩
  · simp only [topNumbersOf, counterMostCommon, List.map_take]
    rw [List.length_take, List.length_map, stableSortBy_length]
    omega
  · simp only [topNumbersOf]
    exact counterMostCommon_keys_nodup 7 hkeysnd
  · intro y hy
    simp only [topNumbersOf] at hy
    have h1 := counterMostCommon_keys_sub _ 7 y hy
    rcases mainCounts_keys_mem draws [] y h1 with h | h
    · simp at h
    · obtain ⟨d', hd', hk⟩ := h
      exact (hv d' hd').2.2 y hk

/-- A well-formed recommendation record: its numbers form a 7-element
duplicate-free selection from 1..50. -/
def recShapeOk (rec : Recommendation) : Prop :=
  rec.numbers.length = 7 ∧ rec.numbers.Nodup ∧ ∀ n ∈ rec.numbers, 1 ≤ n ∧ n ≤ 50

theorem recShapeOk_of_ticketOk (eng : EngineState) (ns : List Nat) (alg : String)
    (l s : Option String) (e : Option (List String)) (lg : Option String)
    (h : ticketOk ns) :
    recShapeOk (buildRecommendation eng ns alg l s e lg)
    ∧ List.Sorted (· ≤ ·) (buildRecommendation eng ns alg l s e lg).numbers := by
  obtain ⟨h1, h2, h3, h4⟩ := h
  constructor
  · exact ⟨by rw [buildRecommendation_numbers]; exact h1,
      by rw [buildRecommendation_numbers]; exact h2,
      by rw [buildRecommendation_numbers]; exact h4⟩
  · rw [buildRecommendation_numbers]
    exact h3

theorem genLoop_preserves (P : Recommendation → Prop) (eng : EngineState) (count : Nat)
    (maxSim : ℚ) (fillFuel : Nat)
    (hP : ∀ (r : Rng) (ns : List Nat), (buildCandidate eng fillFuel r).1 = some ns →
      P (buildRecommendation eng ns "BalancedHotColdMix" none none none none)) :
    ∀ (budget : Nat) (r : Rng) (recs : List Recommendation), (∀ x ∈ recs, P x) →
      ∀ out, (genLoop eng count maxSim fillFuel budget r recs).1 = some out →
        ∀ x ∈ out, P x := by
  intro budget
  induction budget with
  | zero =>
    intro r recs h out hout
    simp only [genLoop] at hout
    injection hout with hout
    exact hout ▸ h
  | succ b ih =>
    intro r recs h out hout
    simp only [genLoop] at hout
    by_cases hc : count ≤ recs.length
    · simp only [hc, if_true] at hout
      injection hout with hout
      exact hout ▸ h
    · simp only [hc, if_false] at hout
      cases hcand : (buildCandidate eng fillFuel r).1 with
      | none => rw [hcand] at hout; cases hout
      | some ns =>
        rw [hcand] at hout
        simp only at hout
        refine ih _ (acceptCandidate eng maxSim recs ns) ?_ out hout
        intro x hx
        unfold acceptCandidate at hx
        split_ifs at hx <;>
          first
            | exact h x hx
            | exact (List.mem_append.mp hx).elim (fun hm => h x hm)
                (fun hm => by
                  rw [List.mem_singleton] at hm
                  rw [hm]
                  exact hP r ns hcand)

/-- Every batch `generate` can return consists of well-formed recommendations
with sorted numbers. -/
def generateShapeOk (eng : EngineState) : Prop :=
  ∀ (count : Nat) (maxSim : ℚ) (fillFuel : Nat) (r : Rng) (out : List Recommendation),
    engineGenerate eng count maxSim fillFuel r = some out →
    ∀ rec ∈ out, recShapeOk rec ∧ List.Sorted (· ≤ ·) rec.numbers

theorem engineGenerate_shape (eng : EngineState)
    (hhot : ∀ y ∈ eng.hotNumbers, 1 ≤ y ∧ y ≤ 50)
    (hcold : ∀ y ∈ eng.coldNumbers, 1 ≤ y ∧ y ≤ 50)
    (hpairs : ∀ p ∈ eng.commonPairs, (1 ≤ p.1 ∧ p.1 ≤ 50) ∧ (1 ≤ p.2 ∧ p.2 ≤ 50)) :
    generateShapeOk eng := by
  intro count maxSim fillFuel r out hout rec hrec
  simp only [engineGenerate, engineGenerateFull] at hout
  refine genLoop_preserves
    (fun x => recShapeOk x ∧ List.Sorted (· ≤ ·) x.numbers)
    eng count maxSim fillFuel ?_ (count * 300) r [] (by simp) out hout rec hrec
  intro r' ns hns
  exact recShapeOk_of_ticketOk eng ns _ none none none none
    (buildCandidate_shape eng hhot hcold hpairs fillFuel r' ns hns)

theorem ticketOk_weightedSample (fops : FloatOps) (ws : List (Nat × ℚ)) (r : Rng)
    (hpos : ∀ p ∈ ws, 0 < p.2) (hkeys : ws.map Prod.fst = List.range' 1 50) :
    ticketOk (weightedSampleWithoutReplacement fops ws 7 r).1 := by
  have hnd : (ws.map Prod.fst).Nodup := by
    rw [hkeys]; exact List.nodup_range' 1 50 1
  obtain ⟨hl, hn, hs, hm⟩ := weightedSample_shape fops ws 7 r hpos hnd
  have hlen : ws.length = 50 := by
    have h := congrArg List.length hkeys
    simpa using h
  refine ⟨by rw [hl, hlen]; decide, hn, hs, ?_⟩
  intro y hy
  have h1 := hm y hy
  rw [hkeys] at h1
  have h2 := List.mem_range'_1.mp h1
  omega

theorem ticketOk_topK (d : List (Nat × ℚ))
    (hkeys : d.map Prod.fst = List.range' 1 50) :
    ticketOk (sortedNat (topKByValueDesc d 7)) := by
  have hnd : (d.map Prod.fst).Nodup := by
    rw [hkeys]; exact List.nodup_range' 1 50 1
  obtain ⟨hl, hn, hm⟩ := topKByValueDesc_shape d 7 hnd
  have hlen : d.length = 50 := by
    have h := congrArg List.length hkeys
    simpa using h
  refine ticketOk_sortedNat (by rw [hl, hlen]; decide) hn ?_
  intro y hy
  have h1 := hm y hy
  rw [hkeys] at h1
  have h2 := List.mem_range'_1.mp h1
  omega

theorem ticketOk_sortedNat_of {t : List Nat} (h : ticketOk t) : ticketOk (sortedNat t) :=
  ticketOk_sortedNat h.1 h.2.1 h.2.2.2

/-- Every entry of a `build_recommendations` batch is a well-formed
recommendation, and every entry except the PureFrequencyTop7 one carries its
numbers sorted ascending. -/
def batchTicketsOk (env : Env) (fillFuel : Nat) (draws : List DrawRec)
    (seed : Option String) (lang : String) : Prop :=
  ∀ out, buildRecommendations env fillFuel draws seed lang = some out →
    ∀ rec ∈ out, recShapeOk rec ∧
      (rec.algorithm = "PureFrequencyTop7" ∨ List.Sorted (· ≤ ·) rec.numbers)

/-- C3 (amended): for a well-formed draw history every recommendation in the
batch — and every recommendation `generate` returns — carries exactly 7
distinct numbers drawn from 1..50; the numbers are sorted ascending for every
entry except the PureFrequencyTop7 one, which keeps frequency order. -/
theorem recommendations_well_formed (env : Env) (fillFuel : Nat) (draws : List DrawRec)
    (seed : Option String) (lang : String) (hv : ValidDraws draws) :
    batchTicketsOk env fillFuel draws seed lang
    ∧ generateShapeOk (mkEngine draws lang) := by
  have hgen : ∀ lg : String, generateShapeOk (mkEngine draws lg) := fun lg =>
    engineGenerate_shape _ (mkEngine_hot_range draws lg hv)
      (mkEngine_cold_range draws lg) (mkEngine_pairs_range draws lg hv)
  refine ⟨?_, hgen lang⟩
  intro out hout rec hrec
  simp only [buildRecommendations] at hout
  by_cases hne : draws.isEmpty
  · rw [if_pos hne] at hout
    injection hout with hout
    subst hout
    simp at hrec
  · rw [if_neg hne] at hout
    have hne' : draws ≠ [] := by simpa [List.isEmpty_iff] using hne
    split at hout
    · cases hout
    · rename_i balanced hbal
      injection hout with hout
      subst hout
      rw [List.mem_append] at hrec
      rcases hrec with hrec | hrec
      · cases balanced with
        | nil => simp at hrec
        | cons b rest =>
          simp at hrec
          have hb := hgen (if lang = "en" then "en" else "zh") 1 (2/5) fillFuel
            (pyRandomOfSeed env seed) (b :: rest)
            (by simpa [engineGenerate] using hbal) b (by simp)
          rw [hrec]
          exact ⟨hb.1, Or.inr hb.2⟩
      · simp only [List.mem_cons, List.not_mem_nil, or_false] at hrec
        rcases hrec with h | h | h | h | h | h | h | h
        · subst h
          obtain ⟨f1, f2, f3⟩ :=
            freqNumbers_shape draws (if lang = "en" then "en" else "zh") hv hne'
          refine ⟨⟨?_, ?_, ?_⟩, Or.inl (buildRecommendation_algorithm _ _ _ _ _ _ _)⟩
          · rw [buildRecommendation_numbers]; exact f1
          · rw [buildRecommendation_numbers]; exact f2
          · rw [buildRecommendation_numbers]; exact f3
        · subst h
          refine (fun H => ⟨H.1, Or.inr H.2⟩) (recShapeOk_of_ticketOk _ _ _ _ _ _ _ ?_)
          exact ticketOk_weightedSample _ _ _ (dirichlet_pos _) (dirichlet_keys _ 1)
        · subst h
          refine (fun H => ⟨H.1, Or.inr H.2⟩) (recShapeOk_of_ticketOk _ _ _ _ _ _ _ ?_)
          exact ticketOk_topK _ (binomialZ_keys _ _)
        · subst h
          refine (fun H => ⟨H.1, Or.inr H.2⟩) (recShapeOk_of_ticketOk _ _ _ _ _ _ _ ?_)
          exact ticketOk_topK _ (ewmaScores_keys _ _ _ _)
        · subst h
          refine (fun H => ⟨H.1, Or.inr H.2⟩) (recShapeOk_of_ticketOk _ _ _ _ _ _ _ ?_)
          exact ticketOk_sortedNat_of (featureDistributionTicket_ok _ _ _)
        · subst h
          refine (fun H => ⟨H.1, Or.inr H.2⟩) (recShapeOk_of_ticketOk _ _ _ _ _ _ _ ?_)
          exact ticketOk_sortedNat_of (antiCrowdTicket_ok _)
        · subst h
          refine (fun H => ⟨H.1, Or.inr H.2⟩) (recShapeOk_of_ticketOk _ _ _ _ _ _ _ ?_)
          exact ticketOk_topK _ (changePoint_keys _ _)
        · subst h
          refine (fun H => ⟨H.1, Or.inr H.2⟩) (recShapeOk_of_ticketOk _ _ _ _ _ _ _ ?_)
          exact ticketOk_sortedNat_of
            (ticketOk_weightedSample _ _ _ (ewmaScores_pos _ _) (ewmaScores_keys _ _ _ _))

/-- Witness for C3 (amended) at a concrete two-draw history. -/
theorem recommendations_well_formed_witness :
    ValidDraws twoDraws
    ∧ (batchTicketsOk cexEnv 37 twoDraws (some "s") "zh"
        ∧ generateShapeOk (mkEngine twoDraws "zh")) :=
  ⟨by unfold ValidDraws; decide,
   recommendations_well_formed cexEnv 37 twoDraws (some "s") "zh"
     (by unfold ValidDraws; decide)⟩
